import Mathlib

/-!
# PRVHASH core rounds, loaders and the prvrng byte generator

A shallow embedding of `prvhash_core.h` (version 4.1) and `prvrng.h` (version 2.1).

Conventions of the embedding:

* a `uintN_t` value is a `Nat` below `2 ^ N`; every operation that C performs in
  `uintN_t` is followed by an explicit `% 2 ^ N`;
* `uint8_t` operands are promoted to `int` before arithmetic: the places where a
  promoted value can be negative (`~x`, `a - b`) are computed in `Int`, and a cast
  `(uint8_t)` is the reduction mod 256;
* in/out pointer parameters become arguments and fields of the returned record;
* `int` is taken to be 32 bits wide, so `uint32_t` and `uint64_t` are not promoted.
-/

namespace Prvhash

/-! ## Machine-level helpers -/

/-- The record a core round leaves behind: the three written-back words and the
returned value. -/
structure CoreOut where
  Seed : Nat
  lcg : Nat
  Hash : Nat
  out : Nat
deriving DecidableEq

/-- Bitwise complement `~x` of a `uint64_t`. -/
def not64 (x : Nat) : Nat := 2 ^ 64 - 1 - x

/-- Bitwise complement `~x` of a `uint32_t`. -/
def not32 (x : Nat) : Nat := 2 ^ 32 - 1 - x

/-- Difference `a - b` of two `uint64_t` values (`b ≤ 2 ^ 64`). -/
def sub64 (a b : Nat) : Nat := (a + 2 ^ 64 - b) % 2 ^ 64

/-- Difference `a - b` of two `uint32_t` values (`b ≤ 2 ^ 32`). -/
def sub32 (a b : Nat) : Nat := (a + 2 ^ 32 - b) % 2 ^ 32

/-- Cast `(uint8_t) x` of an `int` value. -/
def toU8 (x : Int) : Nat := (x % 256).toNat

/-! ## `prvhash_core.h`: variant-A rounds -/

/-- `prvhash_core64`, lines 57-73. -/
def prvhash_core64 (Seed0 lcg0 Hash0 : Nat) : CoreOut :=
  let Seed := Seed0
  let lcg := lcg0
  let Hash := Hash0
  let plcg := lcg
  let mx := (Seed * sub64 lcg (not64 lcg)) % 2 ^ 64
  let rs := mx >>> 32 ||| (mx <<< 32) % 2 ^ 64
  let lcg := (lcg + not64 mx) % 2 ^ 64
  let Hash := (Hash + rs) % 2 ^ 64
  let Seed := Hash ^^^ plcg
  let out := lcg ^^^ rs
  { Seed := Seed, lcg := lcg, Hash := Hash, out := out }

/-- `prvhash_core32`, lines 75-91. -/
def prvhash_core32 (Seed0 lcg0 Hash0 : Nat) : CoreOut :=
  let Seed := Seed0
  let lcg := lcg0
  let Hash := Hash0
  let plcg := lcg
  let mx := (Seed * sub32 lcg (not32 lcg)) % 2 ^ 32
  let rs := mx >>> 16 ||| (mx <<< 16) % 2 ^ 32
  let lcg := (lcg + not32 mx) % 2 ^ 32
  let Hash := (Hash + rs) % 2 ^ 32
  let Seed := Hash ^^^ plcg
  let out := lcg ^^^ rs
  { Seed := Seed, lcg := lcg, Hash := Hash, out := out }

/-- `prvhash_core8`, lines 111-127.  The operands of `*`, `-`, `~`, `>>`, `<<`, `|`
and `^` are promoted to `int`; `+=` adds in `int` and stores back as `uint8_t`. -/
def prvhash_core8 (Seed0 lcg0 Hash0 : Nat) : CoreOut :=
  let Seed := Seed0
  let lcg := lcg0
  let Hash := Hash0
  let plcg := lcg
  let mx := toU8 ((Seed : Int) * ((lcg : Int) - ~~~(lcg : Int)))
  let rs := (mx >>> 4 ||| mx <<< 4) % 256
  let lcg := (lcg + toU8 (~~~(mx : Int))) % 256
  let Hash := (Hash + rs) % 256
  let Seed := (Hash ^^^ plcg) % 256
  let out := (lcg ^^^ rs) % 256
  { Seed := Seed, lcg := lcg, Hash := Hash, out := out }

/-- `prvhash_core4`, lines 129-147.  The product `Seed * ( lcg - ~lcg )` is a
non-negative `int`, so `& 15` is taken on its value as a natural number. -/
def prvhash_core4 (Seed0 lcg0 Hash0 : Nat) : CoreOut :=
  let Seed := Seed0
  let lcg := lcg0
  let Hash := Hash0
  let plcg := lcg
  let mx := toU8 (((((Seed : Int) * ((lcg : Int) - ~~~(lcg : Int))).toNat &&& 15 : Nat) : Int))
  let rs := ((mx >>> 2 ||| mx <<< 2) &&& 15) % 256
  let lcg := (lcg + toU8 (~~~(mx : Int))) % 256
  let lcg := lcg &&& 15
  let Hash := (Hash + rs) % 256
  let Hash := Hash &&& 15
  let Seed := (Hash ^^^ plcg) % 256
  let out := (lcg ^^^ rs) % 256
  { Seed := Seed, lcg := lcg, Hash := Hash, out := out }

/-- `prvhash_core2`, lines 149-167, with the same promotions as `prvhash_core4`. -/
def prvhash_core2 (Seed0 lcg0 Hash0 : Nat) : CoreOut :=
  let Seed := Seed0
  let lcg := lcg0
  let Hash := Hash0
  let plcg := lcg
  let mx := toU8 (((((Seed : Int) * ((lcg : Int) - ~~~(lcg : Int))).toNat &&& 3 : Nat) : Int))
  let rs := ((mx >>> 1 ||| mx <<< 1) &&& 3) % 256
  let lcg := (lcg + toU8 (~~~(mx : Int))) % 256
  let lcg := lcg &&& 3
  let Hash := (Hash + rs) % 256
  let Hash := Hash &&& 3
  let Seed := (Hash ^^^ plcg) % 256
  let out := (lcg ^^^ rs) % 256
  { Seed := Seed, lcg := lcg, Hash := Hash, out := out }

/-! ## `prvhash_core.h`: byte swapping and variant-B rounds -/

/-- The portable `PRVHASH_BYTESW32( v )` macro, lines 199-203, on a `uint32_t`. -/
def PRVHASH_BYTESW32 (v : Nat) : Nat :=
  (v &&& 0xFF000000) >>> 24 |||
  (v &&& 0x00FF0000) >>> 8 |||
  ((v &&& 0x0000FF00) <<< 8) % 2 ^ 32 |||
  ((v &&& 0x000000FF) <<< 24) % 2 ^ 32

/-- The portable `PRVHASH_BYTESW64( v )` macro, lines 205-213, on a `uint64_t`. -/
def PRVHASH_BYTESW64 (v : Nat) : Nat :=
  (v &&& 0xFF00000000000000) >>> 56 |||
  (v &&& 0x00FF000000000000) >>> 40 |||
  (v &&& 0x0000FF0000000000) >>> 24 |||
  (v &&& 0x000000FF00000000) >>> 8 |||
  ((v &&& 0x00000000FF000000) <<< 8) % 2 ^ 64 |||
  ((v &&& 0x0000000000FF0000) <<< 24) % 2 ^ 64 |||
  ((v &&& 0x000000000000FF00) <<< 40) % 2 ^ 64 |||
  ((v &&& 0x00000000000000FF) <<< 56) % 2 ^ 64

/-- `prvhash_core64i`, lines 236-251. -/
def prvhash_core64i (Seed0 lcg0 Hash0 : Nat) : CoreOut :=
  let Seed := Seed0
  let lcg := lcg0
  let Hash := Hash0
  let Seed := Seed ^^^ (Hash ^^^ lcg)
  let Seed := (Seed * sub64 lcg (not64 lcg)) % 2 ^ 64
  let lcg := (lcg + not64 Seed) % 2 ^ 64
  let rs := PRVHASH_BYTESW64 Seed
  let Hash := (Hash + rs) % 2 ^ 64
  let out := lcg ^^^ rs
  { Seed := Seed, lcg := lcg, Hash := Hash, out := out }

/-- `prvhash_core2i`, lines 253-271. -/
def prvhash_core2i (Seed0 lcg0 Hash0 : Nat) : CoreOut :=
  let Seed := Seed0
  let lcg := lcg0
  let Hash := Hash0
  let Seed := (Seed ^^^ (Hash ^^^ lcg) % 256) % 256
  let Seed := toU8 ((Seed : Int) * (toU8 ((lcg : Int) - ~~~(lcg : Int)) : Int))
  let Seed := Seed &&& 3
  let lcg := (lcg + toU8 (~~~(Seed : Int))) % 256
  let lcg := lcg &&& 3
  let rs := ((Seed >>> 1 ||| Seed <<< 1) &&& 3) % 256
  let Hash := (Hash + rs) % 256
  let Hash := Hash &&& 3
  let out := (lcg ^^^ rs) % 256
  { Seed := Seed, lcg := lcg, Hash := Hash, out := out }

/-! ## `prvhash_core.h`: loaders

Memory is a list of bytes and a pointer is an index into it; a read outside the
list has no value.  The flag `le` is the byte order of the host
(`PRVHASH_LITTLE_ENDIAN`). -/

/-- The value a host of the given byte order finds in a `uint32_t` after
`memcpy( &v, p, 4 )` of the bytes `b0 b1 b2 b3`. -/
def rawLoad32 (le : Bool) (b0 b1 b2 b3 : Nat) : Nat :=
  if le then b0 + b1 * 2 ^ 8 + b2 * 2 ^ 16 + b3 * 2 ^ 24
  else b3 + b2 * 2 ^ 8 + b1 * 2 ^ 16 + b0 * 2 ^ 24

/-- The value a host of the given byte order finds in a `uint64_t` after
`memcpy( &v, p, 8 )`. -/
def rawLoad64 (le : Bool) (b0 b1 b2 b3 b4 b5 b6 b7 : Nat) : Nat :=
  if le then b0 + b1 * 2 ^ 8 + b2 * 2 ^ 16 + b3 * 2 ^ 24 + b4 * 2 ^ 32 + b5 * 2 ^ 40 +
    b6 * 2 ^ 48 + b7 * 2 ^ 56
  else b7 + b6 * 2 ^ 8 + b5 * 2 ^ 16 + b4 * 2 ^ 24 + b3 * 2 ^ 32 + b2 * 2 ^ 40 +
    b1 * 2 ^ 48 + b0 * 2 ^ 56

/-- `PRVHASH_EC32( v )`, lines 298-308. -/
def PRVHASH_EC32 (le : Bool) (v : Nat) : Nat := if le then v else PRVHASH_BYTESW32 v

/-- `PRVHASH_EC64( v )`, lines 298-308. -/
def PRVHASH_EC64 (le : Bool) (v : Nat) : Nat := if le then v else PRVHASH_BYTESW64 v

/-- `prvhash_lu32ec`, lines 318-324, reading at index `p` of `mem`. -/
def prvhash_lu32ec (le : Bool) (mem : List Nat) (p : Nat) : Option Nat := do
  let b0 ← mem[p]?
  let b1 ← mem[p + 1]?
  let b2 ← mem[p + 2]?
  let b3 ← mem[p + 3]?
  let v := rawLoad32 le b0 b1 b2 b3
  pure (PRVHASH_EC32 le v)

/-- `prvhash_lu64ec`, lines 334-340, reading at index `p` of `mem`. -/
def prvhash_lu64ec (le : Bool) (mem : List Nat) (p : Nat) : Option Nat := do
  let b0 ← mem[p]?
  let b1 ← mem[p + 1]?
  let b2 ← mem[p + 2]?
  let b3 ← mem[p + 3]?
  let b4 ← mem[p + 4]?
  let b5 ← mem[p + 5]?
  let b6 ← mem[p + 6]?
  let b7 ← mem[p + 7]?
  let v := rawLoad64 le b0 b1 b2 b3 b4 b5 b6 b7
  pure (PRVHASH_EC64 le v)

/-- `prvhash_lpu64ec`, lines 353-398; `Msg ≤ MsgEnd` are indices into `mem`. -/
def prvhash_lpu64ec (le : Bool) (mem : List Nat) (Msg MsgEnd : Nat) (fb : Nat) :
    Option Nat := do
  let l := MsgEnd - Msg
  let r := (fb <<< (l <<< 3)) % 2 ^ 64
  if l > 3 then
    let v ← prvhash_lu32ec le mem Msg
    let r := r ||| v
    let Msg := Msg + 4
    if Msg < MsgEnd then
      let b ← mem[Msg]?
      let r := r ||| (b <<< 32) % 2 ^ 64
      let Msg := Msg + 1
      if Msg < MsgEnd then
        let b ← mem[Msg]?
        let r := r ||| (b <<< 40) % 2 ^ 64
        let Msg := Msg + 1
        if Msg < MsgEnd then
          let b ← mem[Msg]?
          let r := r ||| (b <<< 48) % 2 ^ 64
          pure r
        else pure r
      else pure r
    else pure r
  else if l ≠ 0 then
    let b ← mem[Msg]?
    let r := r ||| b
    let Msg := Msg + 1
    if Msg < MsgEnd then
      let b ← mem[Msg]?
      let r := r ||| (b <<< 8) % 2 ^ 64
      let Msg := Msg + 1
      if Msg < MsgEnd then
        let b ← mem[Msg]?
        let r := r ||| (b <<< 16) % 2 ^ 64
        pure r
      else pure r
    else pure r
  else pure r

/-! ## `prvrng.h`

The entropy device is a stream of bytes `dev : Nat → Nat`; the field `f` of the
context is the open stream, `none` for `NULL` and `some pos` for a stream whose
next byte is `dev pos`. -/

/-- `PRVRNG_CTX`, lines 58-72. -/
structure PRVRNG_CTX where
  f : Option Nat
  Hash : Nat
  lcg : Nat
  Seed : Nat
  EntCtr : Int
  HashLeft : Int
  LastHash : Nat
deriving DecidableEq

/-- `prvrng_gen_entropy`, lines 81-96: `val` keeps its initial 0 when nothing is
read. -/
def prvrng_gen_entropy (dev : Nat → Nat) (ctx : PRVRNG_CTX) : Nat × PRVRNG_CTX :=
  match ctx.f with
  | none => (0, ctx)
  | some pos => (dev pos % 256, { ctx with f := some (pos + 1) })

/-- `prvrng_prvhash42_32`, lines 105-115. -/
def prvrng_prvhash42_32 (ctx : PRVRNG_CTX) (msg : Nat) : PRVRNG_CTX :=
  let ctx := { ctx with Seed := ctx.Seed ^^^ msg }
  let ctx := { ctx with Seed := (ctx.Seed * ctx.lcg) % 2 ^ 64 }
  let ph := ctx.Hash
  let ctx := { ctx with Hash := ctx.Hash ^^^ (ctx.Seed >>> 32) }
  let ctx := { ctx with Seed := ctx.Seed ^^^ (ph ^^^ msg) }
  { ctx with lcg := (ctx.lcg + ctx.Seed) % 2 ^ 64 }

/-- `prvrng_prvhash42_64`, lines 160-183. -/
def prvrng_prvhash42_64 (ctx : PRVRNG_CTX) (msg : Nat) : PRVRNG_CTX :=
  let ctx := { ctx with Seed := ctx.Seed ^^^ msg }
  let ctx := { ctx with Seed := (ctx.Seed * ctx.lcg) % 2 ^ 64 }
  let ph := ctx.Hash &&& 0xFFFFFFFF
  let ctx := { ctx with Hash := ctx.Hash ^^^ (ctx.Seed >>> 32) }
  let ctx := { ctx with Seed := ctx.Seed ^^^ (ph ^^^ msg) }
  let ctx := { ctx with Seed := (ctx.Seed * ctx.lcg) % 2 ^ 64 }
  let ph := ctx.Hash >>> 32
  let ctx := { ctx with Hash := ctx.Hash ^^^ (ctx.Seed &&& 0xFFFFFFFF00000000) }
  let ctx := { ctx with Seed := ctx.Seed ^^^ (ph ^^^ msg) }
  { ctx with lcg := (ctx.lcg + ctx.Seed) % 2 ^ 64 }

/-- `prvrng_gen32`, lines 123-151: the returned byte and the context afterwards. -/
def prvrng_gen32 (dev : Nat → Nat) (ctx : PRVRNG_CTX) : Nat × PRVRNG_CTX :=
  let ctx :=
    if ctx.HashLeft = 0 then
      let (msg, ctx) :=
        if ctx.EntCtr = 0 then
          let (e, ctx) := prvrng_gen_entropy dev ctx
          let ctx := { ctx with EntCtr := (((e + 1) <<< 2 : Nat) : Int) }
          prvrng_gen_entropy dev ctx
        else
          (0, ctx)
      let ctx := prvrng_prvhash42_32 ctx msg
      let ctx := { ctx with HashLeft := 4 }
      let ctx := { ctx with LastHash := ctx.Hash }
      { ctx with EntCtr := ctx.EntCtr - 1 }
    else ctx
  let r := ctx.LastHash % 256
  let ctx := { ctx with LastHash := ctx.LastHash >>> 8 }
  let ctx := { ctx with HashLeft := ctx.HashLeft - 1 }
  (r, ctx)

/-- `prvrng_gen64`, lines 191-219: the returned byte and the context afterwards. -/
def prvrng_gen64 (dev : Nat → Nat) (ctx : PRVRNG_CTX) : Nat × PRVRNG_CTX :=
  let ctx :=
    if ctx.HashLeft = 0 then
      let (msg, ctx) :=
        if ctx.EntCtr = 0 then
          let (e, ctx) := prvrng_gen_entropy dev ctx
          let ctx := { ctx with EntCtr := (((e + 1) <<< 3 : Nat) : Int) }
          prvrng_gen_entropy dev ctx
        else
          (0, ctx)
      let ctx := prvrng_prvhash42_64 ctx msg
      let ctx := { ctx with HashLeft := 8 }
      let ctx := { ctx with LastHash := ctx.Hash }
      { ctx with EntCtr := ctx.EntCtr - 1 }
    else ctx
  let r := ctx.LastHash % 256
  let ctx := { ctx with LastHash := ctx.LastHash >>> 8 }
  let ctx := { ctx with HashLeft := ctx.HashLeft - 1 }
  (r, ctx)

/-- The `for( i = 0; i < 32; i++ )` loop of `prvrng_init32`, lines 262-265, with
`n` iterations left. -/
def preInitLoop32 (dev : Nat → Nat) : Nat → PRVRNG_CTX → PRVRNG_CTX
  | 0, ctx => ctx
  | n + 1, ctx =>
    let (e, ctx) := prvrng_gen_entropy dev ctx
    preInitLoop32 dev n (prvrng_prvhash42_32 ctx e)

/-- The `for( i = 0; i < 32; i++ )` loop of `prvrng_init64`, lines 291-294, with
`n` iterations left. -/
def preInitLoop64 (dev : Nat → Nat) : Nat → PRVRNG_CTX → PRVRNG_CTX
  | 0, ctx => ctx
  | n + 1, ctx =>
    let (e, ctx) := prvrng_gen_entropy dev ctx
    preInitLoop64 dev n (prvrng_prvhash42_64 ctx e)

/-- `prvrng_init32`, lines 230-269 (the `PRVRNG_UNIX` branch); `openOk` tells
whether `fopen` returns a stream.  Returns the `int` result and the context. -/
def prvrng_init32 (dev : Nat → Nat) (openOk : Bool) (ctx : PRVRNG_CTX) (DoPreInit : Bool) :
    Int × PRVRNG_CTX :=
  let ctx := { ctx with f := if openOk then some 0 else none }
  if ctx.f = none then (0, ctx)
  else
    let ctx := { ctx with Hash := 0 }
    let ctx := { ctx with lcg := 15267459991392010589 }
    let ctx := { ctx with Seed := 7928988912013905173 }
    let ctx := { ctx with EntCtr := 0 }
    let ctx := { ctx with HashLeft := 0 }
    let ctx := { ctx with LastHash := 0 }
    let ctx := if DoPreInit then preInitLoop32 dev 32 ctx else ctx
    (1, ctx)

/-- `prvrng_init64`, lines 280-298. -/
def prvrng_init64 (dev : Nat → Nat) (openOk : Bool) (ctx : PRVRNG_CTX) (DoPreInit : Bool) :
    Int × PRVRNG_CTX :=
  let (r, ctx) := prvrng_init32 dev openOk ctx false
  if r = 0 then (0, ctx)
  else
    let ctx := if DoPreInit then preInitLoop64 dev 32 ctx else ctx
    (1, ctx)

/-- The context after `n` successive calls of `prvrng_gen32`. -/
def run32 (dev : Nat → Nat) : Nat → PRVRNG_CTX → PRVRNG_CTX
  | 0, ctx => ctx
  | n + 1, ctx => run32 dev n (prvrng_gen32 dev ctx).2

/-- The context after `n` successive calls of `prvrng_gen64`. -/
def run64 (dev : Nat → Nat) : Nat → PRVRNG_CTX → PRVRNG_CTX
  | 0, ctx => ctx
  | n + 1, ctx => run64 dev n (prvrng_gen64 dev ctx).2

/-- A call of `prvrng_gen32` or `prvrng_gen64` on this context takes the branch
`HashLeft == 0`, `EntCtr == 0` and reads the entropy device. -/
def drawsEntropy (ctx : PRVRNG_CTX) : Bool := ctx.HashLeft == 0 && ctx.EntCtr == 0

/-! ## The width-generic variant-A round of the specification -/

/-- Complement of `x` within `W` bits. -/
def specNot (W x : Nat) : Nat := 2 ^ W - 1 - x

/-- Circular rotation of the `W`-bit word `x` by `W / 2` bits: the two halves of
the word change places. -/
def specRot (W x : Nat) : Nat := (x % 2 ^ (W / 2)) * 2 ^ (W / 2) + x / 2 ^ (W / 2)

/-- One variant-A round as the specification writes it, all arithmetic mod
`2 ^ W`: `plcg = lcg; mx = Seed * (lcg - ~lcg); rs = rot(mx, W/2); lcg = lcg + ~mx;
Hash = Hash + rs; Seed = Hash xor plcg; out = lcg xor rs`. -/
def specRoundA (W Seed lcg Hash : Nat) : CoreOut :=
  let plcg := lcg
  let mx := (Seed * ((lcg + 2 ^ W - specNot W lcg) % 2 ^ W)) % 2 ^ W
  let rs := specRot W mx
  let lcg1 := (lcg + specNot W mx) % 2 ^ W
  let Hash1 := (Hash + rs) % 2 ^ W
  { Seed := Hash1 ^^^ plcg, lcg := lcg1, Hash := Hash1, out := lcg1 ^^^ rs }

/-! ## Reference definitions used by the statements -/

/-- The `n` low bytes of `x`, least significant first. -/
def toBytesLE : Nat → Nat → List Nat
  | 0, _ => []
  | n + 1, x => x % 256 :: toBytesLE n (x / 256)

/-- The number whose little-endian bytes are the given list: the sum of
`b[i] * 256 ^ i`. -/
def ofBytesLE : List Nat → Nat
  | [] => 0
  | b :: bs => b + 256 * ofBytesLE bs

/-- The 64-bit word `x` with its eight bytes in reversed order. -/
def specByteswap64 (x : Nat) : Nat := ofBytesLE (toBytesLE 8 x).reverse

/-- One variant-B round as the specification writes it, mod `2 ^ 64`:
`Seed ^= Hash xor lcg; Seed *= (lcg - ~lcg); lcg += ~Seed; rs = byteswap(Seed);
Hash += rs; out = lcg xor rs`. -/
def specRoundB64 (Seed lcg Hash : Nat) : CoreOut :=
  let Seed1 := ((Seed ^^^ Hash ^^^ lcg) * ((lcg + 2 ^ 64 - specNot 64 lcg) % 2 ^ 64)) % 2 ^ 64
  let lcg1 := (lcg + specNot 64 Seed1) % 2 ^ 64
  let rs := specByteswap64 Seed1
  { Seed := Seed1, lcg := lcg1, Hash := (Hash + rs) % 2 ^ 64, out := lcg1 ^^^ rs }

/-- The variant-A round for `W = 8` over unbounded naturals, every result reduced
mod 256. -/
def refCore8 (Seed lcg Hash : Nat) : CoreOut :=
  let mx := (Seed * (2 * lcg + 1)) % 256
  let rs := (mx / 16 + mx * 16) % 256
  let lcg1 := (lcg + 255 - mx) % 256
  let Hash1 := (Hash + rs) % 256
  { Seed := Hash1 ^^^ lcg, lcg := lcg1, Hash := Hash1, out := lcg1 ^^^ rs }

/-- The `(Seed, lcg, Hash)` triple after one "prvhash42" round for a 32-bit hash with
message `msg`, in arithmetic mod `2 ^ 64`. -/
def refRound42_32 (Seed lcg Hash msg : Nat) : Nat × Nat × Nat :=
  let S1 := ((Seed ^^^ msg) * lcg) % 2 ^ 64
  let Hash1 := Hash ^^^ (S1 / 2 ^ 32)
  let Seed1 := S1 ^^^ (Hash ^^^ msg)
  (Seed1, (lcg + Seed1) % 2 ^ 64, Hash1)

/-- The `(Seed, lcg, Hash)` triple after one "prvhash42" round for a 64-bit hash with
message `msg`: two multiply steps, the first folding the upper half of `Seed` into the
lower half of `Hash`, the second folding the upper half of `Seed` into the upper half
of `Hash`. -/
def refRound42_64 (Seed lcg Hash msg : Nat) : Nat × Nat × Nat :=
  let S1 := ((Seed ^^^ msg) * lcg) % 2 ^ 64
  let H1 := Hash ^^^ (S1 / 2 ^ 32)
  let S2 := S1 ^^^ ((Hash % 2 ^ 32) ^^^ msg)
  let S3 := (S2 * lcg) % 2 ^ 64
  let H2 := H1 ^^^ ((S3 / 2 ^ 32) * 2 ^ 32)
  let S4 := S3 ^^^ ((H1 / 2 ^ 32) ^^^ msg)
  (S4, (lcg + S4) % 2 ^ 64, H2)

/-- The byte a read of the device yields on the stream `f`. -/
def entByte (dev : Nat → Nat) (f : Option Nat) : Nat :=
  match f with
  | none => 0
  | some pos => dev pos % 256

/-- The message a refill injects: the second byte read from the device when
`EntCtr` is 0, and 0 otherwise. -/
def refillMsg (dev : Nat → Nat) (ctx : PRVRNG_CTX) : Nat :=
  if ctx.EntCtr = 0 then (prvrng_gen_entropy dev (prvrng_gen_entropy dev ctx).2).1 else 0

/-- A context with a small triple, `HashLeft = 0` and `EntCtr = 1`. -/
def smallCtx : PRVRNG_CTX :=
  { f := some 0, Hash := 0, lcg := 1, Seed := 1, EntCtr := 1, HashLeft := 0, LastHash := 0 }

/-- An all-zero context: the storage handed to `prvrng_init32`. -/
def zeroCtx : PRVRNG_CTX :=
  { f := none, Hash := 0, lcg := 0, Seed := 0, EntCtr := 0, HashLeft := 0, LastHash := 0 }

/-- The device whose every byte is `0xFF`. -/
def devFF : Nat → Nat := fun _ => 255

/-- The device whose every byte is `0`. -/
def dev00 : Nat → Nat := fun _ => 0

/-! ## Definitions for the generator outputs and the state transitions -/

/-- The context `prvrng_init32` builds before any pre-warm round: the stream at its
first byte, the two fixed constants, everything else 0. -/
def initCtx : PRVRNG_CTX :=
  { f := some 0, Hash := 0, lcg := 15267459991392010589, Seed := 7928988912013905173,
    EntCtr := 0, HashLeft := 0, LastHash := 0 }

/-- The bytes the next `n` calls of `prvrng_gen32` return, in order. -/
def outs32 (dev : Nat → Nat) : Nat → PRVRNG_CTX → List Nat
  | 0, _ => []
  | n + 1, ctx => (prvrng_gen32 dev ctx).1 :: outs32 dev n (prvrng_gen32 dev ctx).2

/-- The bytes the next `n` calls of `prvrng_gen64` return, in order. -/
def outs64 (dev : Nat → Nat) : Nat → PRVRNG_CTX → List Nat
  | 0, _ => []
  | n + 1, ctx => (prvrng_gen64 dev ctx).1 :: outs64 dev n (prvrng_gen64 dev ctx).2

/-- The state transition of `prvhash_core64`: the written-back triple. -/
def state64 (Seed lcg Hash : Nat) : Nat × Nat × Nat :=
  ((prvhash_core64 Seed lcg Hash).Seed, (prvhash_core64 Seed lcg Hash).lcg,
    (prvhash_core64 Seed lcg Hash).Hash)

/-- The state transition of `prvhash_core64i`: the written-back triple. -/
def state64i (Seed lcg Hash : Nat) : Nat × Nat × Nat :=
  ((prvhash_core64i Seed lcg Hash).Seed, (prvhash_core64i Seed lcg Hash).lcg,
    (prvhash_core64i Seed lcg Hash).Hash)

/-! ## Bit-level lemmas -/

theorem int_not_eq (n : Int) : ~~~ n = -n - 1 := by
  cases n with
  | ofNat a => show Int.negSucc a = _; rw [Int.negSucc_eq]; simp; omega
  | negSucc a => show Int.ofNat a = _; rw [Int.negSucc_eq]; simp

theorem or_mul_pow (a b k : Nat) (h : a < 2 ^ k) : a ||| b * 2 ^ k = a + b * 2 ^ k := by
  rw [Nat.or_comm, Nat.mul_comm, ← Nat.mul_add_lt_is_or h, Nat.add_comm]

theorem rot64_eq (x : Nat) (h : x < 2 ^ 64) :
    x >>> 32 ||| (x <<< 32) % 2 ^ 64 = specRot 64 x := by
  have h1 : (x <<< 32) % 2 ^ 64 = (x % 2 ^ 32) * 2 ^ 32 := by
    simp only [Nat.shiftLeft_eq]; omega
  rw [h1, Nat.shiftRight_eq_div_pow, or_mul_pow _ _ _ (by omega)]
  simp only [specRot]; omega

theorem rot32_eq (x : Nat) (h : x < 2 ^ 32) :
    x >>> 16 ||| (x <<< 16) % 2 ^ 32 = specRot 32 x := by
  have h1 : (x <<< 16) % 2 ^ 32 = (x % 2 ^ 16) * 2 ^ 16 := by
    simp only [Nat.shiftLeft_eq]; omega
  rw [h1, Nat.shiftRight_eq_div_pow, or_mul_pow _ _ _ (by omega)]
  simp only [specRot]; omega

theorem and_byte_mask (x k : Nat) :
    x &&& (255 * 2 ^ k) = ((x / 2 ^ k) % 256) * 2 ^ k := by
  have h : x &&& ((2 ^ 8 - 1) <<< k) = ((x >>> k) % 2 ^ 8) <<< k := by
    apply Nat.eq_of_testBit_eq
    intro i
    simp only [Nat.testBit_and, Nat.testBit_shiftLeft, Nat.testBit_shiftRight,
      Nat.testBit_mod_two_pow, Nat.testBit_two_pow_sub_one]
    by_cases hk : k ≤ i
    · have : k + (i - k) = i := by omega
      simp [hk, this, Bool.and_comm]
    · simp [hk]
  simpa [Nat.shiftLeft_eq, Nat.shiftRight_eq_div_pow] using h

theorem toBytesLE_8 (v : Nat) : toBytesLE 8 v =
    [v % 256, v / 256 % 256, v / 65536 % 256, v / 16777216 % 256, v / 4294967296 % 256,
      v / 1099511627776 % 256, v / 281474976710656 % 256, v / 72057594037927936 % 256] := by
  simp [toBytesLE, Nat.div_div_eq_div_mul]

theorem bytesw64_bytes (a0 a1 a2 a3 a4 a5 a6 a7 : Nat) (h0 : a0 < 256) (h1 : a1 < 256)
    (h2 : a2 < 256) (h3 : a3 < 256) (h4 : a4 < 256) (h5 : a5 < 256) (h6 : a6 < 256)
    (h7 : a7 < 256) :
    a7 * 72057594037927936 / 72057594037927936 |||
                  a6 * 281474976710656 / 1099511627776 |||
                a5 * 1099511627776 / 16777216 |||
              a4 * 4294967296 / 256 |||
            a3 * 16777216 * 256 % 18446744073709551616 |||
          a2 * 65536 * 16777216 % 18446744073709551616 |||
        a1 * 256 * 1099511627776 % 18446744073709551616 |||
      a0 * 72057594037927936 % 18446744073709551616 =
    ofBytesLE [a7, a6, a5, a4, a3, a2, a1, a0] := by
  have e7 : a7 * 72057594037927936 / 72057594037927936 = a7 := by omega
  have e6 : a6 * 281474976710656 / 1099511627776 = a6 * 2 ^ 8 := by omega
  have e5 : a5 * 1099511627776 / 16777216 = a5 * 2 ^ 16 := by omega
  have e4 : a4 * 4294967296 / 256 = a4 * 2 ^ 24 := by omega
  have e3 : a3 * 16777216 * 256 % 18446744073709551616 = a3 * 2 ^ 32 := by omega
  have e2 : a2 * 65536 * 16777216 % 18446744073709551616 = a2 * 2 ^ 40 := by omega
  have e1 : a1 * 256 * 1099511627776 % 18446744073709551616 = a1 * 2 ^ 48 := by omega
  have e0 : a0 * 72057594037927936 % 18446744073709551616 = a0 * 2 ^ 56 := by omega
  rw [e0, e1, e2, e3, e4, e5, e6, e7]
  rw [or_mul_pow _ _ 8 (by omega), or_mul_pow _ _ 16 (by omega), or_mul_pow _ _ 24 (by omega),
    or_mul_pow _ _ 32 (by omega), or_mul_pow _ _ 40 (by omega), or_mul_pow _ _ 48 (by omega),
    or_mul_pow _ _ 56 (by omega)]
  simp only [ofBytesLE]
  omega

theorem bytesw64_eq (v : Nat) : PRVHASH_BYTESW64 v = specByteswap64 v := by
  have m0 := and_byte_mask v 0
  have m1 := and_byte_mask v 8
  have m2 := and_byte_mask v 16
  have m3 := and_byte_mask v 24
  have m4 := and_byte_mask v 32
  have m5 := and_byte_mask v 40
  have m6 := and_byte_mask v 48
  have m7 := and_byte_mask v 56
  norm_num at m0 m1 m2 m3 m4 m5 m6 m7
  simp only [PRVHASH_BYTESW64, specByteswap64, toBytesLE_8]
  norm_num only [m0, m1, m2, m3, m4, m5, m6, m7, Nat.shiftLeft_eq, Nat.shiftRight_eq_div_pow]
  exact bytesw64_bytes _ _ _ _ _ _ _ _ (Nat.mod_lt _ (by norm_num)) (Nat.mod_lt _ (by norm_num))
    (Nat.mod_lt _ (by norm_num)) (Nat.mod_lt _ (by norm_num)) (Nat.mod_lt _ (by norm_num))
    (Nat.mod_lt _ (by norm_num)) (Nat.mod_lt _ (by norm_num)) (Nat.mod_lt _ (by norm_num))

theorem specRot64_ones : specRot 64 (2 ^ 64 - 1) = 2 ^ 64 - 1 := by
  simp only [specRot]; norm_num

theorem bytesw64_ones : PRVHASH_BYTESW64 (2 ^ 64 - 1) = 2 ^ 64 - 1 := by
  decide

theorem toBytesLE_4 (v : Nat) : toBytesLE 4 v =
    [v % 256, v / 256 % 256, v / 65536 % 256, v / 16777216 % 256] := by
  simp [toBytesLE, Nat.div_div_eq_div_mul]

theorem bytesw32_bytes (a0 a1 a2 a3 : Nat) (h0 : a0 < 256) (h1 : a1 < 256)
    (h2 : a2 < 256) (h3 : a3 < 256) :
    a3 * 16777216 / 16777216 ||| a2 * 65536 / 256 ||| a1 * 256 * 256 % 4294967296 |||
      a0 * 16777216 % 4294967296 = ofBytesLE [a3, a2, a1, a0] := by
  have e3 : a3 * 16777216 / 16777216 = a3 := by omega
  have e2 : a2 * 65536 / 256 = a2 * 2 ^ 8 := by omega
  have e1 : a1 * 256 * 256 % 4294967296 = a1 * 2 ^ 16 := by omega
  have e0 : a0 * 16777216 % 4294967296 = a0 * 2 ^ 24 := by omega
  rw [e0, e1, e2, e3]
  rw [or_mul_pow _ _ 8 (by omega), or_mul_pow _ _ 16 (by omega), or_mul_pow _ _ 24 (by omega)]
  simp only [ofBytesLE]
  omega

theorem bytesw32_eq (v : Nat) :
    PRVHASH_BYTESW32 v = ofBytesLE (toBytesLE 4 v).reverse := by
  have m0 := and_byte_mask v 0
  have m1 := and_byte_mask v 8
  have m2 := and_byte_mask v 16
  have m3 := and_byte_mask v 24
  norm_num at m0 m1 m2 m3
  simp only [PRVHASH_BYTESW32, toBytesLE_4]
  norm_num only [m0, m1, m2, m3, Nat.shiftLeft_eq, Nat.shiftRight_eq_div_pow]
  exact bytesw32_bytes _ _ _ _ (Nat.mod_lt _ (by norm_num)) (Nat.mod_lt _ (by norm_num))
    (Nat.mod_lt _ (by norm_num)) (Nat.mod_lt _ (by norm_num))

theorem ec32_raw (le : Bool) (b0 b1 b2 b3 : Nat) (h0 : b0 < 256) (h1 : b1 < 256)
    (h2 : b2 < 256) (h3 : b3 < 256) :
    PRVHASH_EC32 le (rawLoad32 le b0 b1 b2 b3) = ofBytesLE [b0, b1, b2, b3] := by
  cases le
  · simp only [PRVHASH_EC32, rawLoad32, bytesw32_eq, toBytesLE_4, Bool.false_eq_true, if_false]
    have e0 : (b3 + b2 * 2 ^ 8 + b1 * 2 ^ 16 + b0 * 2 ^ 24) % 256 = b3 := by omega
    have e1 : (b3 + b2 * 2 ^ 8 + b1 * 2 ^ 16 + b0 * 2 ^ 24) / 256 % 256 = b2 := by omega
    have e2 : (b3 + b2 * 2 ^ 8 + b1 * 2 ^ 16 + b0 * 2 ^ 24) / 65536 % 256 = b1 := by omega
    have e3 : (b3 + b2 * 2 ^ 8 + b1 * 2 ^ 16 + b0 * 2 ^ 24) / 16777216 % 256 = b0 := by omega
    rw [e0, e1, e2, e3]
    rfl
  · simp only [PRVHASH_EC32, rawLoad32, if_true, ofBytesLE]
    omega

theorem ec64_raw (le : Bool) (b0 b1 b2 b3 b4 b5 b6 b7 : Nat) (h0 : b0 < 256) (h1 : b1 < 256)
    (h2 : b2 < 256) (h3 : b3 < 256) (h4 : b4 < 256) (h5 : b5 < 256) (h6 : b6 < 256)
    (h7 : b7 < 256) :
    PRVHASH_EC64 le (rawLoad64 le b0 b1 b2 b3 b4 b5 b6 b7)
      = ofBytesLE [b0, b1, b2, b3, b4, b5, b6, b7] := by
  cases le
  · simp only [PRVHASH_EC64, rawLoad64, bytesw64_eq, specByteswap64, toBytesLE_8,
      Bool.false_eq_true, if_false]
    generalize hv : b7 + b6 * 2 ^ 8 + b5 * 2 ^ 16 + b4 * 2 ^ 24 + b3 * 2 ^ 32 + b2 * 2 ^ 40 +
      b1 * 2 ^ 48 + b0 * 2 ^ 56 = v
    obtain ⟨e0, e1, e2, e3, e4, e5, e6, e7⟩ : v % 256 = b7 ∧ v / 256 % 256 = b6 ∧
        v / 65536 % 256 = b5 ∧ v / 16777216 % 256 = b4 ∧ v / 4294967296 % 256 = b3 ∧
        v / 1099511627776 % 256 = b2 ∧ v / 281474976710656 % 256 = b1 ∧
        v / 72057594037927936 % 256 = b0 :=
      ⟨by omega, by omega, by omega, by omega, by omega, by omega, by omega, by omega⟩
    rw [e0, e1, e2, e3, e4, e5, e6, e7]
    rfl
  · simp only [PRVHASH_EC64, rawLoad64, if_true, ofBytesLE]
    omega

theorem shl_byte (b k : Nat) (hb : b < 256) (hk : k ≤ 56) :
    (b <<< k) % 18446744073709551616 = b * 2 ^ k := by
  rw [Nat.shiftLeft_eq]
  apply Nat.mod_eq_of_lt
  calc b * 2 ^ k < 256 * 2 ^ k := Nat.mul_lt_mul_of_pos_right hb (Nat.pow_pos (by norm_num))
    _ ≤ 256 * 2 ^ 56 := Nat.mul_le_mul_left _ (Nat.pow_le_pow_right (by norm_num) hk)
    _ = 18446744073709551616 := by norm_num

theorem or_insert (lo mid hi k j : Nat) (h1 : lo < 2 ^ k) (h2 : lo + mid * 2 ^ k < 2 ^ j) :
    (lo + hi * 2 ^ j) ||| mid * 2 ^ k = lo + mid * 2 ^ k + hi * 2 ^ j := by
  have hlo : lo < 2 ^ j := Nat.lt_of_le_of_lt (Nat.le_add_right _ _) h2
  rw [← or_mul_pow lo hi j hlo, Nat.or_assoc, Nat.or_comm (hi * 2 ^ j), ← Nat.or_assoc,
    or_mul_pow lo mid k h1, or_mul_pow _ hi j h2]

/-! ## Small-width rounds -/

theorem toU8_natCast (n : Nat) : toU8 (n : Int) = n % 256 := by
  simp only [toU8]; omega

theorem toU8_not (n : Nat) (h : n < 256) : toU8 (~~~(n : Int)) = 255 - n := by
  simp only [toU8, int_not_eq]; omega

theorem int_mul_sub_not (s l : Nat) :
    (s : Int) * ((l : Int) - ~~~(l : Int)) = ((s * (2 * l + 1) : Nat) : Int) := by
  rw [int_not_eq]; push_cast; ring

set_option maxRecDepth 1000000 in
set_option maxHeartbeats 4000000 in
theorem core2_core4_table :
    (∀ Seed, Seed < 2 ^ 2 → ∀ lcg, lcg < 2 ^ 2 → ∀ Hash, Hash < 2 ^ 2 →
      prvhash_core2 Seed lcg Hash = specRoundA 2 Seed lcg Hash) ∧
    (∀ Seed, Seed < 2 ^ 4 → ∀ lcg, lcg < 2 ^ 4 → ∀ Hash, Hash < 2 ^ 4 →
      prvhash_core4 Seed lcg Hash = specRoundA 4 Seed lcg Hash) := by
  decide

theorem and15_lt (x : Nat) : x &&& 15 < 2 ^ 4 := Nat.and_lt_two_pow x (by norm_num)

theorem and3_lt (x : Nat) : x &&& 3 < 2 ^ 2 := Nat.and_lt_two_pow x (by norm_num)

theorem xor_mod_lt (a b n : Nat) (ha : a < 2 ^ n) (hb : b < 2 ^ n) : (a ^^^ b) % 256 < 2 ^ n :=
  Nat.lt_of_le_of_lt (Nat.mod_le _ _) (Nat.xor_lt_two_pow ha hb)

theorem mod_lt_of_lt (a n : Nat) (ha : a < 2 ^ n) : a % 256 < 2 ^ n :=
  Nat.lt_of_le_of_lt (Nat.mod_le _ _) ha

theorem xor_lt_256 (a b : Nat) (ha : a < 256) (hb : b < 256) : a ^^^ b < 256 := by
  have h : a ^^^ b < 2 ^ 8 := Nat.xor_lt_two_pow (by omega) (by omega)
  omega

/-! ## The padded loader, one lemma per tail length -/

theorem lpu64ec_len0 (le : Bool) (fb : Nat) 
    (hfb : fb < 256) :
    prvhash_lpu64ec le [] 0 0 fb =
      some ((∑ i ∈ Finset.range 0, ([] : List Nat).getD i 0 * 256 ^ i) + fb * 256 ^ 0) := by
  simp [prvhash_lpu64ec, Finset.sum_range_succ]
  omega

theorem lpu64ec_len1 (le : Bool) (b0 fb : Nat) (hb0 : b0 < 256)
    (hfb : fb < 256) :
    prvhash_lpu64ec le [b0] 0 1 fb =
      some ((∑ i ∈ Finset.range 1, ([b0] : List Nat).getD i 0 * 256 ^ i) + fb * 256 ^ 1) := by
  simp [prvhash_lpu64ec, Finset.sum_range_succ]
  rw [shl_byte fb 8 hfb (by norm_num)]
  rw [Nat.or_comm (fb * 2 ^ 8),
    or_mul_pow _ fb 8 (by omega)]
  omega

theorem lpu64ec_len2 (le : Bool) (b0 b1 fb : Nat) (hb0 : b0 < 256) (hb1 : b1 < 256)
    (hfb : fb < 256) :
    prvhash_lpu64ec le [b0, b1] 0 2 fb =
      some ((∑ i ∈ Finset.range 2, ([b0, b1] : List Nat).getD i 0 * 256 ^ i) + fb * 256 ^ 2) := by
  simp [prvhash_lpu64ec, Finset.sum_range_succ]
  rw [shl_byte fb 16 hfb (by norm_num), shl_byte b1 8 hb1 (by norm_num)]
  rw [Nat.or_comm (fb * 2 ^ 16),
    or_mul_pow _ fb 16 (by omega),
    or_insert _ b1 fb 8 16 (by omega) (by omega)]
  omega

theorem lpu64ec_len3 (le : Bool) (b0 b1 b2 fb : Nat) (hb0 : b0 < 256) (hb1 : b1 < 256) (hb2 : b2 < 256)
    (hfb : fb < 256) :
    prvhash_lpu64ec le [b0, b1, b2] 0 3 fb =
      some ((∑ i ∈ Finset.range 3, ([b0, b1, b2] : List Nat).getD i 0 * 256 ^ i) + fb * 256 ^ 3) := by
  simp [prvhash_lpu64ec, Finset.sum_range_succ]
  rw [shl_byte fb 24 hfb (by norm_num), shl_byte b1 8 hb1 (by norm_num), shl_byte b2 16 hb2 (by norm_num)]
  rw [Nat.or_comm (fb * 2 ^ 24),
    or_mul_pow _ fb 24 (by omega),
    or_insert _ b1 fb 8 24 (by omega) (by omega),
    or_insert _ b2 fb 16 24 (by omega) (by omega)]
  omega

theorem lpu64ec_len4 (le : Bool) (b0 b1 b2 b3 fb : Nat) (hb0 : b0 < 256) (hb1 : b1 < 256) (hb2 : b2 < 256) (hb3 : b3 < 256)
    (hfb : fb < 256) :
    prvhash_lpu64ec le [b0, b1, b2, b3] 0 4 fb =
      some ((∑ i ∈ Finset.range 4, ([b0, b1, b2, b3] : List Nat).getD i 0 * 256 ^ i) + fb * 256 ^ 4) := by
  simp [prvhash_lpu64ec, prvhash_lu32ec, ec32_raw le b0 b1 b2 b3 hb0 hb1 hb2 hb3, ofBytesLE,
    Finset.sum_range_succ]
  rw [shl_byte fb 32 hfb (by norm_num)]
  rw [Nat.or_comm (fb * 2 ^ 32),
    or_mul_pow _ fb 32 (by omega)]
  omega

theorem lpu64ec_len5 (le : Bool) (b0 b1 b2 b3 b4 fb : Nat) (hb0 : b0 < 256) (hb1 : b1 < 256) (hb2 : b2 < 256) (hb3 : b3 < 256) (hb4 : b4 < 256)
    (hfb : fb < 256) :
    prvhash_lpu64ec le [b0, b1, b2, b3, b4] 0 5 fb =
      some ((∑ i ∈ Finset.range 5, ([b0, b1, b2, b3, b4] : List Nat).getD i 0 * 256 ^ i) + fb * 256 ^ 5) := by
  simp [prvhash_lpu64ec, prvhash_lu32ec, ec32_raw le b0 b1 b2 b3 hb0 hb1 hb2 hb3, ofBytesLE,
    Finset.sum_range_succ]
  rw [shl_byte fb 40 hfb (by norm_num), shl_byte b4 32 hb4 (by norm_num)]
  rw [Nat.or_comm (fb * 2 ^ 40),
    or_mul_pow _ fb 40 (by omega),
    or_insert _ b4 fb 32 40 (by omega) (by omega)]
  omega

theorem lpu64ec_len6 (le : Bool) (b0 b1 b2 b3 b4 b5 fb : Nat) (hb0 : b0 < 256) (hb1 : b1 < 256) (hb2 : b2 < 256) (hb3 : b3 < 256) (hb4 : b4 < 256) (hb5 : b5 < 256)
    (hfb : fb < 256) :
    prvhash_lpu64ec le [b0, b1, b2, b3, b4, b5] 0 6 fb =
      some ((∑ i ∈ Finset.range 6, ([b0, b1, b2, b3, b4, b5] : List Nat).getD i 0 * 256 ^ i) + fb * 256 ^ 6) := by
  simp [prvhash_lpu64ec, prvhash_lu32ec, ec32_raw le b0 b1 b2 b3 hb0 hb1 hb2 hb3, ofBytesLE,
    Finset.sum_range_succ]
  rw [shl_byte fb 48 hfb (by norm_num), shl_byte b4 32 hb4 (by norm_num), shl_byte b5 40 hb5 (by norm_num)]
  rw [Nat.or_comm (fb * 2 ^ 48),
    or_mul_pow _ fb 48 (by omega),
    or_insert _ b4 fb 32 48 (by omega) (by omega),
    or_insert _ b5 fb 40 48 (by omega) (by omega)]
  omega

theorem lpu64ec_len7 (le : Bool) (b0 b1 b2 b3 b4 b5 b6 fb : Nat) (hb0 : b0 < 256) (hb1 : b1 < 256) (hb2 : b2 < 256) (hb3 : b3 < 256) (hb4 : b4 < 256) (hb5 : b5 < 256) (hb6 : b6 < 256)
    (hfb : fb < 256) :
    prvhash_lpu64ec le [b0, b1, b2, b3, b4, b5, b6] 0 7 fb =
      some ((∑ i ∈ Finset.range 7, ([b0, b1, b2, b3, b4, b5, b6] : List Nat).getD i 0 * 256 ^ i) + fb * 256 ^ 7) := by
  simp [prvhash_lpu64ec, prvhash_lu32ec, ec32_raw le b0 b1 b2 b3 hb0 hb1 hb2 hb3, ofBytesLE,
    Finset.sum_range_succ]
  rw [shl_byte fb 56 hfb (by norm_num), shl_byte b4 32 hb4 (by norm_num), shl_byte b5 40 hb5 (by norm_num), shl_byte b6 48 hb6 (by norm_num)]
  rw [Nat.or_comm (fb * 2 ^ 56),
    or_mul_pow _ fb 56 (by omega),
    or_insert _ b4 fb 32 56 (by omega) (by omega),
    or_insert _ b5 fb 40 56 (by omega) (by omega),
    or_insert _ b6 fb 48 56 (by omega) (by omega)]
  omega

/-! ## The generator -/

theorem and_high32 (x : Nat) (hx : x < 2 ^ 64) :
    x &&& 0xFFFFFFFF00000000 = (x / 2 ^ 32) * 2 ^ 32 := by
  apply Nat.eq_of_testBit_eq
  intro i
  have hm : (0xFFFFFFFF00000000 : Nat) = (2 ^ 32 - 1) <<< 32 := by decide
  rw [hm, ← Nat.shiftRight_eq_div_pow, ← Nat.shiftLeft_eq]
  simp only [Nat.testBit_and, Nat.testBit_shiftLeft, Nat.testBit_shiftRight,
    Nat.testBit_two_pow_sub_one]
  by_cases hk : 32 ≤ i
  · have e : 32 + (i - 32) = i := by omega
    by_cases h64 : i < 64
    · have : i - 32 < 32 := by omega
      simp [hk, e, this]
    · have : x.testBit i = false :=
        Nat.testBit_lt_two_pow (Nat.lt_of_lt_of_le hx (Nat.pow_le_pow_right (by norm_num) (by omega)))
      simp [hk, e, this]
  · simp [hk]

theorem gen_entropy_eq (dev : Nat → Nat) (ctx : PRVRNG_CTX) :
    prvrng_gen_entropy dev ctx = (entByte dev ctx.f, { ctx with f := ctx.f.map (· + 1) }) := by
  unfold prvrng_gen_entropy entByte
  cases h : ctx.f <;> simp [h]
  cases ctx; simp_all

theorem gen32_refill_triple (dev : Nat → Nat) (ctx : PRVRNG_CTX) (h : ctx.HashLeft = 0) :
    ((prvrng_gen32 dev ctx).2.Seed, (prvrng_gen32 dev ctx).2.lcg, (prvrng_gen32 dev ctx).2.Hash)
      = refRound42_32 ctx.Seed ctx.lcg ctx.Hash (refillMsg dev ctx) := by
  simp only [prvrng_gen32, h, if_true, refillMsg, refRound42_32, prvrng_prvhash42_32, gen_entropy_eq]
  by_cases hE : ctx.EntCtr = 0
  · simp only [hE, if_true, Nat.shiftRight_eq_div_pow]
  · simp only [hE, if_false, Nat.shiftRight_eq_div_pow]

theorem gen64_refill_triple (dev : Nat → Nat) (ctx : PRVRNG_CTX) (h : ctx.HashLeft = 0) :
    ((prvrng_gen64 dev ctx).2.Seed, (prvrng_gen64 dev ctx).2.lcg, (prvrng_gen64 dev ctx).2.Hash)
      = refRound42_64 ctx.Seed ctx.lcg ctx.Hash (refillMsg dev ctx) := by
  have hm : ∀ x : Nat, x &&& 0xFFFFFFFF = x % 2 ^ 32 := fun x =>
    Nat.and_pow_two_sub_one_eq_mod x 32
  have hh : ∀ x : Nat, (x % 2 ^ 64) &&& 0xFFFFFFFF00000000 = (x % 2 ^ 64 / 2 ^ 32) * 2 ^ 32 :=
    fun x => and_high32 _ (Nat.mod_lt _ (by norm_num))
  simp only [prvrng_gen64, h, if_true, refillMsg, refRound42_64, prvrng_prvhash42_64, gen_entropy_eq]
  by_cases hE : ctx.EntCtr = 0
  · simp only [hE, if_true, Nat.shiftRight_eq_div_pow, hm, hh]
  · simp only [hE, if_false, Nat.shiftRight_eq_div_pow, hm, hh]

theorem gen32_counters (dev : Nat → Nat) (ctx : PRVRNG_CTX) :
    (prvrng_gen32 dev ctx).2.HashLeft = (if ctx.HashLeft = 0 then 3 else ctx.HashLeft - 1) ∧
    (prvrng_gen32 dev ctx).2.EntCtr =
      (if ctx.HashLeft = 0 then
        (if ctx.EntCtr = 0 then 4 * ((entByte dev ctx.f : Int) + 1) - 1 else ctx.EntCtr - 1)
       else ctx.EntCtr) := by
  simp only [prvrng_gen32, prvrng_prvhash42_32, gen_entropy_eq]
  by_cases h : ctx.HashLeft = 0
  · by_cases hE : ctx.EntCtr = 0
    · simp only [h, hE, if_true, Nat.shiftLeft_eq]
      constructor
      · norm_num
      · push_cast; ring
    · simp only [h, hE, if_true, if_false]
      constructor
      · norm_num
      · trivial
  · simp only [h, if_false]
    constructor <;> trivial

theorem gen64_counters (dev : Nat → Nat) (ctx : PRVRNG_CTX) :
    (prvrng_gen64 dev ctx).2.HashLeft = (if ctx.HashLeft = 0 then 7 else ctx.HashLeft - 1) ∧
    (prvrng_gen64 dev ctx).2.EntCtr =
      (if ctx.HashLeft = 0 then
        (if ctx.EntCtr = 0 then 8 * ((entByte dev ctx.f : Int) + 1) - 1 else ctx.EntCtr - 1)
       else ctx.EntCtr) := by
  simp only [prvrng_gen64, prvrng_prvhash42_64, gen_entropy_eq]
  by_cases h : ctx.HashLeft = 0
  · by_cases hE : ctx.EntCtr = 0
    · simp only [h, hE, if_true, Nat.shiftLeft_eq]
      constructor
      · norm_num
      · push_cast; ring
    · simp only [h, hE, if_true, if_false]
      constructor
      · norm_num
      · trivial
  · simp only [h, if_false]
    constructor <;> trivial

theorem run32_succ (dev : Nat → Nat) (n : Nat) (ctx : PRVRNG_CTX) :
    run32 dev (n + 1) ctx = (prvrng_gen32 dev (run32 dev n ctx)).2 := by
  induction n generalizing ctx with
  | zero => rfl
  | succ k ih =>
    show run32 dev (k + 1) (prvrng_gen32 dev ctx).2 = _
    rw [ih]
    rfl

theorem run64_succ (dev : Nat → Nat) (n : Nat) (ctx : PRVRNG_CTX) :
    run64 dev (n + 1) ctx = (prvrng_gen64 dev (run64 dev n ctx)).2 := by
  induction n generalizing ctx with
  | zero => rfl
  | succ k ih =>
    show run64 dev (k + 1) (prvrng_gen64 dev ctx).2 = _
    rw [ih]
    rfl

/-- Counters along a run of `prvrng_gen32` that starts with an entropy-drawing refill:
after `n + 1` calls, as long as `n + 1 ≤ 16 * (e + 1)`. -/
theorem run32_counters (dev : Nat → Nat) (ctx : PRVRNG_CTX) (hH : ctx.HashLeft = 0)
    (hE : ctx.EntCtr = 0) (n : Nat) (hn : n + 1 ≤ 16 * (entByte dev ctx.f + 1)) :
    (run32 dev (n + 1) ctx).HashLeft = ((3 - n % 4 : Nat) : Int) ∧
    (run32 dev (n + 1) ctx).EntCtr = 4 * ((entByte dev ctx.f : Int) + 1) - 1 - ((n / 4 : Nat) : Int) := by
  induction n with
  | zero =>
    have h := gen32_counters dev ctx
    simp only [hH, hE, if_true] at h
    show (prvrng_gen32 dev ctx).2.HashLeft = _ ∧ (prvrng_gen32 dev ctx).2.EntCtr = _
    rw [h.1, h.2]
    constructor <;> norm_num
  | succ k ih =>
    have ih := ih (by omega)
    rw [run32_succ dev (k + 1) ctx]
    have h := gen32_counters dev (run32 dev (k + 1) ctx)
    rw [ih.1, ih.2] at h
    rw [h.1, h.2]
    by_cases hk : k % 4 = 3
    · have e1 : ((3 - k % 4 : Nat) : Int) = 0 := by omega
      have e2 : ¬ (4 * ((entByte dev ctx.f : Int) + 1) - 1 - ((k / 4 : Nat) : Int) = 0) := by omega
      simp only [e1, e2, if_true, if_false]
      constructor <;> omega
    · have e1 : ¬ (((3 - k % 4 : Nat) : Int) = 0) := by omega
      simp only [e1, if_false]
      constructor <;> omega

/-- Counters along a run of `prvrng_gen64` that starts with an entropy-drawing refill:
after `n + 1` calls, as long as `n + 1 ≤ 64 * (e + 1)`. -/
theorem run64_counters (dev : Nat → Nat) (ctx : PRVRNG_CTX) (hH : ctx.HashLeft = 0)
    (hE : ctx.EntCtr = 0) (n : Nat) (hn : n + 1 ≤ 64 * (entByte dev ctx.f + 1)) :
    (run64 dev (n + 1) ctx).HashLeft = ((7 - n % 8 : Nat) : Int) ∧
    (run64 dev (n + 1) ctx).EntCtr = 8 * ((entByte dev ctx.f : Int) + 1) - 1 - ((n / 8 : Nat) : Int) := by
  induction n with
  | zero =>
    have h := gen64_counters dev ctx
    simp only [hH, hE, if_true] at h
    show (prvrng_gen64 dev ctx).2.HashLeft = _ ∧ (prvrng_gen64 dev ctx).2.EntCtr = _
    rw [h.1, h.2]
    constructor <;> norm_num
  | succ k ih =>
    have ih := ih (by omega)
    rw [run64_succ dev (k + 1) ctx]
    have h := gen64_counters dev (run64 dev (k + 1) ctx)
    rw [ih.1, ih.2] at h
    rw [h.1, h.2]
    by_cases hk : k % 8 = 7
    · have e1 : ((7 - k % 8 : Nat) : Int) = 0 := by omega
      have e2 : ¬ (8 * ((entByte dev ctx.f : Int) + 1) - 1 - ((k / 8 : Nat) : Int) = 0) := by omega
      simp only [e1, e2, if_true, if_false]
      constructor <;> omega
    · have e1 : ¬ (((7 - k % 8 : Nat) : Int) = 0) := by omega
      simp only [e1, if_false]
      constructor <;> omega

/-- From an entropy-drawing refill of `prvrng_gen32` that reads the byte `e`, the next
entropy-drawing refill is the call after exactly `16 * (e + 1)` returned bytes. -/
theorem gen32_gap (dev : Nat → Nat) (ctx : PRVRNG_CTX) (hH : ctx.HashLeft = 0)
    (hE : ctx.EntCtr = 0) :
    (∀ n, 0 < n → n < 16 * (entByte dev ctx.f + 1) → drawsEntropy (run32 dev n ctx) = false) ∧
    drawsEntropy (run32 dev (16 * (entByte dev ctx.f + 1)) ctx) = true := by
  constructor
  · intro n h0 hn
    obtain ⟨m, rfl⟩ : ∃ m, n = m + 1 := ⟨n - 1, by omega⟩
    have h := run32_counters dev ctx hH hE m (by omega)
    simp only [drawsEntropy, h.1, h.2, Bool.and_eq_false_iff, beq_eq_false_iff_ne, ne_eq]
    omega
  · obtain ⟨m, hm⟩ : ∃ m, 16 * (entByte dev ctx.f + 1) = m + 1 :=
      ⟨16 * (entByte dev ctx.f + 1) - 1, by omega⟩
    have h := run32_counters dev ctx hH hE m (by omega)
    rw [hm]
    simp only [drawsEntropy, h.1, h.2, Bool.and_eq_true, beq_iff_eq]
    omega

/-- From an entropy-drawing refill of `prvrng_gen64` that reads the byte `e`, the next
entropy-drawing refill is the call after exactly `64 * (e + 1)` returned bytes. -/
theorem gen64_gap (dev : Nat → Nat) (ctx : PRVRNG_CTX) (hH : ctx.HashLeft = 0)
    (hE : ctx.EntCtr = 0) :
    (∀ n, 0 < n → n < 64 * (entByte dev ctx.f + 1) → drawsEntropy (run64 dev n ctx) = false) ∧
    drawsEntropy (run64 dev (64 * (entByte dev ctx.f + 1)) ctx) = true := by
  constructor
  · intro n h0 hn
    obtain ⟨m, rfl⟩ : ∃ m, n = m + 1 := ⟨n - 1, by omega⟩
    have h := run64_counters dev ctx hH hE m (by omega)
    simp only [drawsEntropy, h.1, h.2, Bool.and_eq_false_iff, beq_eq_false_iff_ne, ne_eq]
    omega
  · obtain ⟨m, hm⟩ : ∃ m, 64 * (entByte dev ctx.f + 1) = m + 1 :=
      ⟨64 * (entByte dev ctx.f + 1) - 1, by omega⟩
    have h := run64_counters dev ctx hH hE m (by omega)
    rw [hm]
    simp only [drawsEntropy, h.1, h.2, Bool.and_eq_true, beq_iff_eq]
    omega

/-! ## Claims -/

/-- C1: for 64-bit words `prvhash_core64` returns and writes back exactly what the
variant-A algorithm prescribes mod `2 ^ 64` with a 32-bit rotation, and for 32-bit
words `prvhash_core32` does the same mod `2 ^ 32` with a 16-bit rotation. -/
theorem core64_core32_variantA (Seed lcg Hash s l h : Nat)
    (_ : Seed < 2 ^ 64) (_ : lcg < 2 ^ 64) (_ : Hash < 2 ^ 64)
    (_ : s < 2 ^ 32) (_ : l < 2 ^ 32) (_ : h < 2 ^ 32) :
    prvhash_core64 Seed lcg Hash = specRoundA 64 Seed lcg Hash ∧
    prvhash_core32 s l h = specRoundA 32 s l h := by
  constructor
  · simp only [prvhash_core64, specRoundA, sub64, not64, specNot]
    rw [rot64_eq _ (Nat.mod_lt _ (by norm_num))]
  · simp only [prvhash_core32, specRoundA, sub32, not32, specNot]
    rw [rot32_eq _ (Nat.mod_lt _ (by norm_num))]

/-- C1, instance: a round whose multiply, add and complement all wrap. -/
theorem core64_core32_variantA_witness :
    prvhash_core64 (2 ^ 64 - 1) (2 ^ 63 + 5) (2 ^ 64 - 2)
      = specRoundA 64 (2 ^ 64 - 1) (2 ^ 63 + 5) (2 ^ 64 - 2) ∧
    prvhash_core32 (2 ^ 32 - 1) (2 ^ 31 + 5) (2 ^ 32 - 2)
      = specRoundA 32 (2 ^ 32 - 1) (2 ^ 31 + 5) (2 ^ 32 - 2) :=
  core64_core32_variantA (2 ^ 64 - 1) (2 ^ 63 + 5) (2 ^ 64 - 2) (2 ^ 32 - 1) (2 ^ 31 + 5)
    (2 ^ 32 - 2) (by norm_num) (by norm_num) (by norm_num) (by norm_num) (by norm_num)
    (by norm_num)

/-- C2: for a buffer of `l ≤ 7` bytes and a final byte `fb ≤ 255`, on a host of either
byte order, `prvhash_lpu64ec` returns the sum over `i < l` of `buf[i] * 256 ^ i` plus
`fb * 256 ^ l`. -/
theorem lpu64ec_padded (le : Bool) (buf : List Nat) (fb : Nat) (hl : buf.length ≤ 7)
    (hb : ∀ x ∈ buf, x < 256) (hfb : fb < 256) :
    prvhash_lpu64ec le buf 0 buf.length fb =
      some ((∑ i ∈ Finset.range buf.length, buf.getD i 0 * 256 ^ i) + fb * 256 ^ buf.length) := by
  rcases buf with _ | ⟨b0, _ | ⟨b1, _ | ⟨b2, _ | ⟨b3, _ | ⟨b4, _ | ⟨b5, _ | ⟨b6, _ | ⟨b7, t⟩⟩⟩⟩⟩⟩⟩⟩
  · exact lpu64ec_len0 le fb hfb
  · exact lpu64ec_len1 le b0 fb (hb b0 (by simp)) hfb
  · exact lpu64ec_len2 le b0 b1 fb (hb b0 (by simp)) (hb b1 (by simp)) hfb
  · exact lpu64ec_len3 le b0 b1 b2 fb (hb b0 (by simp)) (hb b1 (by simp)) (hb b2 (by simp)) hfb
  · exact lpu64ec_len4 le b0 b1 b2 b3 fb (hb b0 (by simp)) (hb b1 (by simp)) (hb b2 (by simp))
      (hb b3 (by simp)) hfb
  · exact lpu64ec_len5 le b0 b1 b2 b3 b4 fb (hb b0 (by simp)) (hb b1 (by simp))
      (hb b2 (by simp)) (hb b3 (by simp)) (hb b4 (by simp)) hfb
  · exact lpu64ec_len6 le b0 b1 b2 b3 b4 b5 fb (hb b0 (by simp)) (hb b1 (by simp))
      (hb b2 (by simp)) (hb b3 (by simp)) (hb b4 (by simp)) (hb b5 (by simp)) hfb
  · exact lpu64ec_len7 le b0 b1 b2 b3 b4 b5 b6 fb (hb b0 (by simp)) (hb b1 (by simp))
      (hb b2 (by simp)) (hb b3 (by simp)) (hb b4 (by simp)) (hb b5 (by simp))
      (hb b6 (by simp)) hfb
  · simp at hl

/-- C2, the two boundary cases: an empty tail with final byte `0xFF` loads as `0xFF`,
and the tail `[1,2,3,4,5,6,7]` with final byte `0x80` loads as `0x8007060504030201`. -/
theorem lpu64ec_padded_witness :
    prvhash_lpu64ec true [] 0 0 0xFF = some 0xFF ∧
    prvhash_lpu64ec false [1, 2, 3, 4, 5, 6, 7] 0 7 0x80 = some 0x8007060504030201 :=
  ⟨by simpa using lpu64ec_padded true [] 0xFF (by decide) (by decide) (by decide),
   by simpa [Finset.sum_range_succ] using
     lpu64ec_padded false [1, 2, 3, 4, 5, 6, 7] 0x80 (by decide) (by decide) (by decide)⟩

/-- C3, as stated, fails: the triple a refill of `prvrng_gen32` leaves is not the one
`prvhash_core32` produces, and the triple a refill of `prvrng_gen64` leaves is not the
one `prvhash_core64` produces, on a small context with `msg = 0` and on the freshly
initialised context with an all-zero device. -/
theorem gen_refill_not_core_round :
    smallCtx.HashLeft = 0 ∧
    ((prvrng_gen32 dev00 smallCtx).2.Seed, (prvrng_gen32 dev00 smallCtx).2.lcg,
        (prvrng_gen32 dev00 smallCtx).2.Hash) ≠
      ((prvhash_core32 smallCtx.Seed (smallCtx.lcg ^^^ 0) smallCtx.Hash).Seed,
        (prvhash_core32 smallCtx.Seed (smallCtx.lcg ^^^ 0) smallCtx.Hash).lcg,
        (prvhash_core32 smallCtx.Seed (smallCtx.lcg ^^^ 0) smallCtx.Hash).Hash) ∧
    ((prvrng_gen64 dev00 smallCtx).2.Seed, (prvrng_gen64 dev00 smallCtx).2.lcg,
        (prvrng_gen64 dev00 smallCtx).2.Hash) ≠
      ((prvhash_core64 smallCtx.Seed (smallCtx.lcg ^^^ 0) smallCtx.Hash).Seed,
        (prvhash_core64 smallCtx.Seed (smallCtx.lcg ^^^ 0) smallCtx.Hash).lcg,
        (prvhash_core64 smallCtx.Seed (smallCtx.lcg ^^^ 0) smallCtx.Hash).Hash) ∧
    (prvrng_init64 dev00 true zeroCtx false).2.HashLeft = 0 ∧
    refillMsg dev00 (prvrng_init64 dev00 true zeroCtx false).2 = 0 ∧
    ((prvrng_gen64 dev00 (prvrng_init64 dev00 true zeroCtx false).2).2.Seed,
        (prvrng_gen64 dev00 (prvrng_init64 dev00 true zeroCtx false).2).2.lcg,
        (prvrng_gen64 dev00 (prvrng_init64 dev00 true zeroCtx false).2).2.Hash) ≠
      ((prvhash_core64 7928988912013905173 (15267459991392010589 ^^^ 0) 0).Seed,
        (prvhash_core64 7928988912013905173 (15267459991392010589 ^^^ 0) 0).lcg,
        (prvhash_core64 7928988912013905173 (15267459991392010589 ^^^ 0) 0).Hash) := by
  decide

/-- C3, amended: when a call starts with `HashLeft == 0`, the refill replaces
`(Seed, lcg, Hash)` by the triple one "prvhash42" round yields from it with message
`msg` (the injected entropy byte, or 0): for `prvrng_gen32` the single multiply step,
for `prvrng_gen64` the two multiply steps, all mod `2 ^ 64`; `lcg` is not xor-ed with
`msg`. -/
theorem gen_refill_prvhash42 (dev : Nat → Nat) (ctx : PRVRNG_CTX) (h : ctx.HashLeft = 0) :
    ((prvrng_gen32 dev ctx).2.Seed, (prvrng_gen32 dev ctx).2.lcg, (prvrng_gen32 dev ctx).2.Hash)
      = refRound42_32 ctx.Seed ctx.lcg ctx.Hash (refillMsg dev ctx) ∧
    ((prvrng_gen64 dev ctx).2.Seed, (prvrng_gen64 dev ctx).2.lcg, (prvrng_gen64 dev ctx).2.Hash)
      = refRound42_64 ctx.Seed ctx.lcg ctx.Hash (refillMsg dev ctx) :=
  ⟨gen32_refill_triple dev ctx h, gen64_refill_triple dev ctx h⟩

/-- C3, amended, instance: the first refill after initialisation, device bytes `0xFF`. -/
theorem gen_refill_prvhash42_witness :
    (prvrng_init32 devFF true zeroCtx false).2.HashLeft = 0 ∧
    ((prvrng_gen32 devFF (prvrng_init32 devFF true zeroCtx false).2).2.Seed,
        (prvrng_gen32 devFF (prvrng_init32 devFF true zeroCtx false).2).2.lcg,
        (prvrng_gen32 devFF (prvrng_init32 devFF true zeroCtx false).2).2.Hash)
      = refRound42_32 7928988912013905173 15267459991392010589 0 255 ∧
    ((prvrng_gen64 devFF (prvrng_init32 devFF true zeroCtx false).2).2.Seed,
        (prvrng_gen64 devFF (prvrng_init32 devFF true zeroCtx false).2).2.lcg,
        (prvrng_gen64 devFF (prvrng_init32 devFF true zeroCtx false).2).2.Hash)
      = refRound42_64 7928988912013905173 15267459991392010589 0 255 :=
  ⟨rfl, gen_refill_prvhash42 devFF (prvrng_init32 devFF true zeroCtx false).2 rfl⟩

/-- C4, the code at the failing input: with every device byte `0xFF`, the first call
after `prvrng_init32` is an entropy-drawing refill, none of the following 4095 calls
is, and the call after 4096 returned bytes is the next one, so 4096 bytes lie between
two injections, above the bound 1024; for `prvrng_gen64` the count is 16384, above
2048. -/
theorem gen_gap_at_FF :
    drawsEntropy (prvrng_init32 devFF true zeroCtx false).2 = true ∧
    (∀ n, 0 < n → n < 4096 →
      drawsEntropy (run32 devFF n (prvrng_init32 devFF true zeroCtx false).2) = false) ∧
    drawsEntropy (run32 devFF 4096 (prvrng_init32 devFF true zeroCtx false).2) = true ∧
    drawsEntropy (prvrng_init64 devFF true zeroCtx false).2 = true ∧
    (∀ n, 0 < n → n < 16384 →
      drawsEntropy (run64 devFF n (prvrng_init64 devFF true zeroCtx false).2) = false) ∧
    drawsEntropy (run64 devFF 16384 (prvrng_init64 devFF true zeroCtx false).2) = true ∧
    ¬ (4096 ≤ 1024) ∧ ¬ (16384 ≤ 2048) := by
  have g32 := gen32_gap devFF (prvrng_init32 devFF true zeroCtx false).2 rfl rfl
  have g64 := gen64_gap devFF (prvrng_init64 devFF true zeroCtx false).2 rfl rfl
  exact ⟨rfl, g32.1, g32.2, rfl, g64.1, g64.2, by decide, by decide⟩

/-- C5: for every triple of 64-bit words neither `prvhash_core64` nor `prvhash_core64i`
writes back the same triple while returning 0. -/
theorem core64_no_fixed_point (Seed lcg Hash : Nat) (_hS : Seed < 2 ^ 64) (_hl : lcg < 2 ^ 64)
    (_hH : Hash < 2 ^ 64) :
    prvhash_core64 Seed lcg Hash ≠ { Seed := Seed, lcg := lcg, Hash := Hash, out := 0 } ∧
    prvhash_core64i Seed lcg Hash ≠ { Seed := Seed, lcg := lcg, Hash := Hash, out := 0 } := by
  constructor
  · intro h
    have h1 := congrArg CoreOut.lcg h
    have h2 := congrArg CoreOut.Hash h
    simp only [prvhash_core64] at h1 h2
    rw [rot64_eq _ (Nat.mod_lt _ (by norm_num))] at h2
    have hlt : (Seed * sub64 lcg (not64 lcg)) % 2 ^ 64 < 2 ^ 64 := Nat.mod_lt _ (by norm_num)
    generalize (Seed * sub64 lcg (not64 lcg)) % 2 ^ 64 = mx at h1 h2 hlt
    have hmx : mx = 2 ^ 64 - 1 := by
      simp only [not64] at h1; omega
    rw [hmx, specRot64_ones] at h2
    omega
  · intro h
    have h1 := congrArg CoreOut.lcg h
    have h2 := congrArg CoreOut.Hash h
    simp only [prvhash_core64i] at h1 h2
    have hlt : ((Seed ^^^ (Hash ^^^ lcg)) * sub64 lcg (not64 lcg)) % 2 ^ 64 < 2 ^ 64 :=
      Nat.mod_lt _ (by norm_num)
    generalize ((Seed ^^^ (Hash ^^^ lcg)) * sub64 lcg (not64 lcg)) % 2 ^ 64 = sd at h1 h2 hlt
    have hsd : sd = 2 ^ 64 - 1 := by
      simp only [not64] at h1; omega
    rw [hsd, bytesw64_ones] at h2
    omega

/-- C5, instance: the all-zero triple, which both rounds move. -/
theorem core64_no_fixed_point_witness :
    (0 < 2 ^ 64) ∧
    prvhash_core64 0 0 0 ≠ { Seed := 0, lcg := 0, Hash := 0, out := 0 } ∧
    prvhash_core64i 0 0 0 ≠ { Seed := 0, lcg := 0, Hash := 0, out := 0 } :=
  ⟨by norm_num, core64_no_fixed_point 0 0 0 (by norm_num) (by norm_num) (by norm_num)⟩

/-- C6: for 64-bit words `prvhash_core64i` computes the variant-B round mod `2 ^ 64`,
and the portable `PRVHASH_BYTESW64` is the reversal of the eight bytes of its
argument. -/
theorem core64i_variantB (Seed lcg Hash v : Nat) (_ : Seed < 2 ^ 64) (_ : lcg < 2 ^ 64)
    (_ : Hash < 2 ^ 64) (_ : v < 2 ^ 64) :
    prvhash_core64i Seed lcg Hash = specRoundB64 Seed lcg Hash ∧
    PRVHASH_BYTESW64 v = specByteswap64 v := by
  constructor
  · simp only [prvhash_core64i, specRoundB64, sub64, not64, specNot, bytesw64_eq, Nat.xor_assoc]
  · exact bytesw64_eq v

/-- C6, instance: a round on wrapping operands and the swap of `0x0102030405060708`. -/
theorem core64i_variantB_witness :
    prvhash_core64i (2 ^ 64 - 1) (2 ^ 63 + 5) (2 ^ 64 - 2)
      = specRoundB64 (2 ^ 64 - 1) (2 ^ 63 + 5) (2 ^ 64 - 2) ∧
    PRVHASH_BYTESW64 0x0102030405060708 = specByteswap64 0x0102030405060708 :=
  core64i_variantB (2 ^ 64 - 1) (2 ^ 63 + 5) (2 ^ 64 - 2) 0x0102030405060708 (by norm_num)
    (by norm_num) (by norm_num) (by norm_num)

/-- C7: on a host of either byte order `prvhash_lu32ec` returns
`b[0] + b[1]*2^8 + b[2]*2^16 + b[3]*2^24` for a 4-byte buffer and `prvhash_lu64ec`
returns the sum of `b[i] * 256 ^ i` for an 8-byte buffer. -/
theorem lu32ec_lu64ec_little_endian (le : Bool) (b0 b1 b2 b3 c0 c1 c2 c3 c4 c5 c6 c7 : Nat)
    (hb0 : b0 < 256) (hb1 : b1 < 256) (hb2 : b2 < 256) (hb3 : b3 < 256)
    (hc0 : c0 < 256) (hc1 : c1 < 256) (hc2 : c2 < 256) (hc3 : c3 < 256)
    (hc4 : c4 < 256) (hc5 : c5 < 256) (hc6 : c6 < 256) (hc7 : c7 < 256) :
    prvhash_lu32ec le [b0, b1, b2, b3] 0 = some (b0 + b1 * 2 ^ 8 + b2 * 2 ^ 16 + b3 * 2 ^ 24) ∧
    prvhash_lu64ec le [c0, c1, c2, c3, c4, c5, c6, c7] 0 =
      some (c0 + c1 * 2 ^ 8 + c2 * 2 ^ 16 + c3 * 2 ^ 24 + c4 * 2 ^ 32 + c5 * 2 ^ 40 +
        c6 * 2 ^ 48 + c7 * 2 ^ 56) := by
  constructor
  · simp only [prvhash_lu32ec, List.getElem?_cons_zero, List.getElem?_cons_succ, Nat.zero_add,
      Option.bind_eq_bind, Option.some_bind, Option.pure_def,
      ec32_raw le b0 b1 b2 b3 hb0 hb1 hb2 hb3, ofBytesLE]
    congr 1
    omega
  · simp only [prvhash_lu64ec, List.getElem?_cons_zero, List.getElem?_cons_succ, Nat.zero_add,
      Option.bind_eq_bind, Option.some_bind, Option.pure_def,
      ec64_raw le c0 c1 c2 c3 c4 c5 c6 c7 hc0 hc1 hc2 hc3 hc4 hc5 hc6 hc7, ofBytesLE]
    congr 1
    omega

/-- C7, instance: on a big-endian host `[1,0,0,0]` and `[1,0,0,0,0,0,0,0]` load
as 1. -/
theorem lu32ec_lu64ec_little_endian_witness :
    prvhash_lu32ec false [1, 0, 0, 0] 0 = some 1 ∧
    prvhash_lu64ec false [1, 0, 0, 0, 0, 0, 0, 0] 0 = some 1 := by
  simpa using lu32ec_lu64ec_little_endian false 1 0 0 0 1 0 0 0 0 0 0 0 (by decide) (by decide)
    (by decide) (by decide) (by decide) (by decide) (by decide) (by decide) (by decide)
    (by decide) (by decide) (by decide)

/-- C8, as stated, fails: with an input `lcg` that has a bit set above bit `W - 1`,
`prvhash_core4` and `prvhash_core2` write back a `Seed` that is not below `2 ^ W`. -/
theorem subbyte_seed_leak :
    ¬ ((prvhash_core4 0 16 0).Seed < 2 ^ 4) ∧ ¬ ((prvhash_core2 0 4 0).Seed < 2 ^ 2) := by
  decide

/-- C8, amended: for every triple of `uint8_t` values the written-back `lcg` and `Hash`
and the returned output of `prvhash_core2`, `prvhash_core4` and `prvhash_core2i` are
below `2 ^ W`; the written-back `Seed` of `prvhash_core2i` is below `2 ^ W`, and that
of `prvhash_core2` and `prvhash_core4` is below `2 ^ W` when the input `lcg` is. -/
theorem subbyte_masked (s2 l2 h2 s4 l4 h4 si li hi : Nat)
    (_ : s2 < 2 ^ 8) (_ : l2 < 2 ^ 8) (_ : h2 < 2 ^ 8)
    (_ : s4 < 2 ^ 8) (_ : l4 < 2 ^ 8) (_ : h4 < 2 ^ 8)
    (_ : si < 2 ^ 8) (_ : li < 2 ^ 8) (_ : hi < 2 ^ 8) :
    ((prvhash_core2 s2 l2 h2).lcg < 2 ^ 2 ∧ (prvhash_core2 s2 l2 h2).Hash < 2 ^ 2 ∧
      (prvhash_core2 s2 l2 h2).out < 2 ^ 2 ∧
      (l2 < 2 ^ 2 → (prvhash_core2 s2 l2 h2).Seed < 2 ^ 2)) ∧
    ((prvhash_core4 s4 l4 h4).lcg < 2 ^ 4 ∧ (prvhash_core4 s4 l4 h4).Hash < 2 ^ 4 ∧
      (prvhash_core4 s4 l4 h4).out < 2 ^ 4 ∧
      (l4 < 2 ^ 4 → (prvhash_core4 s4 l4 h4).Seed < 2 ^ 4)) ∧
    ((prvhash_core2i si li hi).lcg < 2 ^ 2 ∧ (prvhash_core2i si li hi).Hash < 2 ^ 2 ∧
      (prvhash_core2i si li hi).out < 2 ^ 2 ∧ (prvhash_core2i si li hi).Seed < 2 ^ 2) := by
  refine ⟨⟨and3_lt _, and3_lt _, ?_, ?_⟩, ⟨and15_lt _, and15_lt _, ?_, ?_⟩,
    ⟨and3_lt _, and3_lt _, ?_, and3_lt _⟩⟩
  · exact xor_mod_lt _ _ 2 (and3_lt _) (mod_lt_of_lt _ 2 (and3_lt _))
  · intro hl
    exact xor_mod_lt _ _ 2 (and3_lt _) hl
  · exact xor_mod_lt _ _ 4 (and15_lt _) (mod_lt_of_lt _ 4 (and15_lt _))
  · intro hl
    exact xor_mod_lt _ _ 4 (and15_lt _) hl
  · exact xor_mod_lt _ _ 2 (and3_lt _) (mod_lt_of_lt _ 2 (and3_lt _))

/-- C8, amended, instance: all-ones bytes for the three rounds; the `Seed` bounds of
`prvhash_core2` and `prvhash_core4` at the in-domain `lcg` values 3 and 15. -/
theorem subbyte_masked_witness :
    ((prvhash_core2 255 255 255).lcg < 2 ^ 2 ∧ (prvhash_core2 255 255 255).Hash < 2 ^ 2 ∧
      (prvhash_core2 255 255 255).out < 2 ^ 2) ∧
    ((prvhash_core4 255 255 255).lcg < 2 ^ 4 ∧ (prvhash_core4 255 255 255).Hash < 2 ^ 4 ∧
      (prvhash_core4 255 255 255).out < 2 ^ 4) ∧
    ((prvhash_core2i 255 255 255).lcg < 2 ^ 2 ∧ (prvhash_core2i 255 255 255).Hash < 2 ^ 2 ∧
      (prvhash_core2i 255 255 255).out < 2 ^ 2 ∧ (prvhash_core2i 255 255 255).Seed < 2 ^ 2) ∧
    (prvhash_core2 255 3 255).Seed < 2 ^ 2 ∧ (prvhash_core4 255 15 255).Seed < 2 ^ 4 :=
  have a := subbyte_masked 255 255 255 255 255 255 255 255 255 (by norm_num) (by norm_num)
    (by norm_num) (by norm_num) (by norm_num) (by norm_num) (by norm_num) (by norm_num)
    (by norm_num)
  have b := subbyte_masked 255 3 255 255 15 255 255 255 255 (by norm_num) (by norm_num)
    (by norm_num) (by norm_num) (by norm_num) (by norm_num) (by norm_num) (by norm_num)
    (by norm_num)
  ⟨⟨a.1.1, a.1.2.1, a.1.2.2.1⟩, ⟨a.2.1.1, a.2.1.2.1, a.2.1.2.2.1⟩, a.2.2,
    b.1.2.2.2 (by norm_num), b.2.1.2.2.2 (by norm_num)⟩

/-- C9: for every triple of 8-bit values `prvhash_core8`, computing in promoted `int`
and casting back, returns the same record as the reference over unbounded integers
reduced mod 256. -/
theorem core8_eq_ref (Seed lcg Hash : Nat) (_hS : Seed < 2 ^ 8) (hl : lcg < 2 ^ 8)
    (_hH : Hash < 2 ^ 8) :
    prvhash_core8 Seed lcg Hash = refCore8 Seed lcg Hash := by
  simp only [prvhash_core8, refCore8, int_mul_sub_not, toU8_natCast]
  have hmx : (Seed * (2 * lcg + 1)) % 256 < 256 := Nat.mod_lt _ (by norm_num)
  generalize (Seed * (2 * lcg + 1)) % 256 = mx at hmx
  rw [toU8_not mx hmx]
  have hrs : mx >>> 4 ||| mx <<< 4 = mx / 16 + mx * 16 := by
    rw [Nat.shiftRight_eq_div_pow, Nat.shiftLeft_eq, or_mul_pow _ _ 4 (by omega)]; omega
  rw [hrs]
  have hlcg : (lcg + (255 - mx)) % 256 = (lcg + 255 - mx) % 256 := by omega
  rw [hlcg]
  have hx1 : ((Hash + (mx / 16 + mx * 16) % 256) % 256 ^^^ lcg) % 256
      = (Hash + (mx / 16 + mx * 16) % 256) % 256 ^^^ lcg :=
    Nat.mod_eq_of_lt (xor_lt_256 _ _ (Nat.mod_lt _ (by norm_num)) hl)
  have hx2 : ((lcg + 255 - mx) % 256 ^^^ (mx / 16 + mx * 16) % 256) % 256
      = (lcg + 255 - mx) % 256 ^^^ (mx / 16 + mx * 16) % 256 :=
    Nat.mod_eq_of_lt (xor_lt_256 _ _ (Nat.mod_lt _ (by norm_num))
      (Nat.mod_lt _ (by norm_num)))
  rw [hx1, hx2]

/-- C9, instance: at `(255, 255, 255)` the product, the sum and the complement all
leave 8 bits, and the result is `(240, 253, 15, 237)`. -/
theorem core8_eq_ref_witness :
    (255 < 2 ^ 8) ∧ prvhash_core8 255 255 255 = refCore8 255 255 255 ∧
    refCore8 255 255 255 = { Seed := 240, lcg := 253, Hash := 15, out := 237 } :=
  ⟨by norm_num, core8_eq_ref 255 255 255 (by norm_num) (by norm_num) (by norm_num), by decide⟩

/-- C10: on triples below `2 ^ W`, `prvhash_core2` (`W = 2`) and `prvhash_core4`
(`W = 4`) return exactly the width-generic variant-A round computed mod `2 ^ W` with
a rotation by `W / 2` bits. -/
theorem core2_core4_refine (s2 l2 h2 s4 l4 h4 : Nat)
    (hs2 : s2 < 2 ^ 2) (hl2 : l2 < 2 ^ 2) (hh2 : h2 < 2 ^ 2)
    (hs4 : s4 < 2 ^ 4) (hl4 : l4 < 2 ^ 4) (hh4 : h4 < 2 ^ 4) :
    prvhash_core2 s2 l2 h2 = specRoundA 2 s2 l2 h2 ∧
    prvhash_core4 s4 l4 h4 = specRoundA 4 s4 l4 h4 :=
  ⟨core2_core4_table.1 s2 hs2 l2 hl2 h2 hh2, core2_core4_table.2 s4 hs4 l4 hl4 h4 hh4⟩

/-- C10, instance: the triples `(3, 3, 3)` and `(15, 9, 14)`. -/
theorem core2_core4_refine_witness :
    prvhash_core2 3 3 3 = specRoundA 2 3 3 3 ∧ prvhash_core4 15 9 14 = specRoundA 4 15 9 14 :=
  core2_core4_refine 3 3 3 15 9 14 (by norm_num) (by norm_num) (by norm_num) (by norm_num)
    (by norm_num) (by norm_num)

/-! ## Lemmas for the generator runs, the initialisation, the multiplier and the loader -/

theorem gen32_refill_state (dev : Nat → Nat) (ctx : PRVRNG_CTX) (pos : Nat)
    (hf : ctx.f = some pos) (hH : ctx.HashLeft = 0) :
    (ctx.EntCtr = 0 →
      (prvrng_gen32 dev ctx).2.f = some (pos + 2) ∧
      (prvrng_gen32 dev ctx).2.EntCtr = ((dev pos % 256 : Nat) + 1) * 4 - 1 ∧
      refillMsg dev ctx = dev (pos + 1) % 256) ∧
    (ctx.EntCtr ≠ 0 →
      (prvrng_gen32 dev ctx).2.f = some pos ∧
      (prvrng_gen32 dev ctx).2.EntCtr = ctx.EntCtr - 1 ∧
      refillMsg dev ctx = 0) := by
  constructor
  · intro hE
    simp only [prvrng_gen32, prvrng_prvhash42_32, gen_entropy_eq, refillMsg, hH, hE, hf, if_true,
      Option.map_some', entByte, Nat.shiftLeft_eq]
    refine ⟨trivial, ?_, trivial⟩
    push_cast; ring
  · intro hE
    simp only [prvrng_gen32, prvrng_prvhash42_32, gen_entropy_eq, refillMsg, hH, hE, hf, if_true,
      if_false]
    exact ⟨trivial, trivial, trivial⟩

theorem gen64_refill_state (dev : Nat → Nat) (ctx : PRVRNG_CTX) (pos : Nat)
    (hf : ctx.f = some pos) (hH : ctx.HashLeft = 0) :
    (ctx.EntCtr = 0 →
      (prvrng_gen64 dev ctx).2.f = some (pos + 2) ∧
      (prvrng_gen64 dev ctx).2.EntCtr = ((dev pos % 256 : Nat) + 1) * 8 - 1 ∧
      refillMsg dev ctx = dev (pos + 1) % 256) ∧
    (ctx.EntCtr ≠ 0 →
      (prvrng_gen64 dev ctx).2.f = some pos ∧
      (prvrng_gen64 dev ctx).2.EntCtr = ctx.EntCtr - 1 ∧
      refillMsg dev ctx = 0) := by
  constructor
  · intro hE
    simp only [prvrng_gen64, prvrng_prvhash42_64, gen_entropy_eq, refillMsg, hH, hE, hf, if_true,
      Option.map_some', entByte, Nat.shiftLeft_eq]
    refine ⟨trivial, ?_, trivial⟩
    push_cast; ring
  · intro hE
    simp only [prvrng_gen64, prvrng_prvhash42_64, gen_entropy_eq, refillMsg, hH, hE, hf, if_true,
      if_false]
    exact ⟨trivial, trivial, trivial⟩

theorem gen32_drain_step (dev : Nat → Nat) (ctx : PRVRNG_CTX) (h : ctx.HashLeft ≠ 0) :
    prvrng_gen32 dev ctx = (ctx.LastHash % 2 ^ 8,
      { ctx with LastHash := ctx.LastHash / 2 ^ 8, HashLeft := ctx.HashLeft - 1 }) := by
  simp only [prvrng_gen32, h, if_false, Nat.shiftRight_eq_div_pow]
  norm_num

theorem gen64_drain_step (dev : Nat → Nat) (ctx : PRVRNG_CTX) (h : ctx.HashLeft ≠ 0) :
    prvrng_gen64 dev ctx = (ctx.LastHash % 2 ^ 8,
      { ctx with LastHash := ctx.LastHash / 2 ^ 8, HashLeft := ctx.HashLeft - 1 }) := by
  simp only [prvrng_gen64, h, if_false, Nat.shiftRight_eq_div_pow]
  norm_num

theorem ofBytesLE_toBytesLE (n x : Nat) : ofBytesLE (toBytesLE n x) = x % 256 ^ n := by
  induction n generalizing x with
  | zero => simp [toBytesLE, ofBytesLE, Nat.mod_one]
  | succ k ih =>
    simp only [toBytesLE, ofBytesLE, ih]
    rw [pow_succ, Nat.mul_comm (256 ^ k) 256, Nat.mod_mul]

theorem drain32 (dev : Nat → Nat) (n : Nat) (ctx : PRVRNG_CTX) (h : (n : Int) ≤ ctx.HashLeft) :
    outs32 dev n ctx = toBytesLE n ctx.LastHash ∧
    run32 dev n ctx =
      { ctx with LastHash := ctx.LastHash / 256 ^ n, HashLeft := ctx.HashLeft - n } := by
  induction n generalizing ctx with
  | zero => simp [outs32, toBytesLE, run32]
  | succ k ih =>
    have hne : ctx.HashLeft ≠ 0 := by omega
    have hs := gen32_drain_step dev ctx hne
    have ih' := ih { ctx with LastHash := ctx.LastHash / 2 ^ 8, HashLeft := ctx.HashLeft - 1 }
      (by show (k : Int) ≤ ctx.HashLeft - 1; omega)
    simp only [outs32, run32, toBytesLE, hs, ih'.1, ih'.2]
    refine ⟨by norm_num, ?_⟩
    simp only [PRVRNG_CTX.mk.injEq, true_and, and_true]
    constructor
    · push_cast; ring
    · rw [Nat.div_div_eq_div_mul, show (2 : Nat) ^ 8 * 256 ^ k = 256 ^ (k + 1) by ring]

theorem drain64 (dev : Nat → Nat) (n : Nat) (ctx : PRVRNG_CTX) (h : (n : Int) ≤ ctx.HashLeft) :
    outs64 dev n ctx = toBytesLE n ctx.LastHash ∧
    run64 dev n ctx =
      { ctx with LastHash := ctx.LastHash / 256 ^ n, HashLeft := ctx.HashLeft - n } := by
  induction n generalizing ctx with
  | zero => simp [outs64, toBytesLE, run64]
  | succ k ih =>
    have hne : ctx.HashLeft ≠ 0 := by omega
    have hs := gen64_drain_step dev ctx hne
    have ih' := ih { ctx with LastHash := ctx.LastHash / 2 ^ 8, HashLeft := ctx.HashLeft - 1 }
      (by show (k : Int) ≤ ctx.HashLeft - 1; omega)
    simp only [outs64, run64, toBytesLE, hs, ih'.1, ih'.2]
    refine ⟨by norm_num, ?_⟩
    simp only [PRVRNG_CTX.mk.injEq, true_and, and_true]
    constructor
    · push_cast; ring
    · rw [Nat.div_div_eq_div_mul, show (2 : Nat) ^ 8 * 256 ^ k = 256 ^ (k + 1) by ring]

theorem prvhash42_64_hash_lt (ctx : PRVRNG_CTX) (msg : Nat) (h : ctx.Hash < 2 ^ 64) :
    (prvrng_prvhash42_64 ctx msg).Hash < 2 ^ 64 := by
  simp only [prvrng_prvhash42_64]
  apply Nat.xor_lt_two_pow
  · apply Nat.xor_lt_two_pow h
    rw [Nat.shiftRight_eq_div_pow]
    have : ((ctx.Seed ^^^ msg) * ctx.lcg) % 2 ^ 64 < 2 ^ 64 := Nat.mod_lt _ (by norm_num)
    omega
  · exact Nat.and_lt_two_pow _ (by norm_num)

theorem gen32_first (dev : Nat → Nat) (ctx : PRVRNG_CTX) (h : ctx.HashLeft = 0) :
    (prvrng_gen32 dev ctx).1 = (prvrng_gen32 dev ctx).2.Hash % 256 ∧
    (prvrng_gen32 dev ctx).2.LastHash = (prvrng_gen32 dev ctx).2.Hash / 256 ∧
    (prvrng_gen32 dev ctx).2.HashLeft = 3 := by
  simp only [prvrng_gen32, h, if_true, Nat.shiftRight_eq_div_pow]
  norm_num

theorem gen64_first (dev : Nat → Nat) (ctx : PRVRNG_CTX) (h : ctx.HashLeft = 0) :
    (prvrng_gen64 dev ctx).1 = (prvrng_gen64 dev ctx).2.Hash % 256 ∧
    (prvrng_gen64 dev ctx).2.LastHash = (prvrng_gen64 dev ctx).2.Hash / 256 ∧
    (prvrng_gen64 dev ctx).2.HashLeft = 7 := by
  simp only [prvrng_gen64, h, if_true, Nat.shiftRight_eq_div_pow]
  norm_num

theorem gen64_hash_lt (dev : Nat → Nat) (ctx : PRVRNG_CTX) (h : ctx.HashLeft = 0)
    (hb : ctx.Hash < 2 ^ 64) : (prvrng_gen64 dev ctx).2.Hash < 2 ^ 64 := by
  by_cases hE : ctx.EntCtr = 0
  · have := prvhash42_64_hash_lt
      (prvrng_gen_entropy dev { (prvrng_gen_entropy dev ctx).2 with
        EntCtr := ((((prvrng_gen_entropy dev ctx).1 + 1) <<< 3 : Nat) : Int) }).2
      (prvrng_gen_entropy dev { (prvrng_gen_entropy dev ctx).2 with
        EntCtr := ((((prvrng_gen_entropy dev ctx).1 + 1) <<< 3 : Nat) : Int) }).1
      (by simpa [gen_entropy_eq] using hb)
    simpa [prvrng_gen64, h, hE] using this
  · have := prvhash42_64_hash_lt ctx 0 hb
    simpa [prvrng_gen64, h, hE] using this

theorem prvhash42_32_setf (ctx : PRVRNG_CTX) (x : Option Nat) (msg : Nat) :
    prvrng_prvhash42_32 { ctx with f := x } msg = { prvrng_prvhash42_32 ctx msg with f := x } :=
  rfl

theorem prvhash42_64_setf (ctx : PRVRNG_CTX) (x : Option Nat) (msg : Nat) :
    prvrng_prvhash42_64 { ctx with f := x } msg = { prvrng_prvhash42_64 ctx msg with f := x } :=
  rfl

theorem foldl42_32_setf (msgs : List Nat) (ctx : PRVRNG_CTX) (x : Option Nat) :
    List.foldl prvrng_prvhash42_32 { ctx with f := x } msgs
      = { List.foldl prvrng_prvhash42_32 ctx msgs with f := x } := by
  induction msgs generalizing ctx with
  | nil => rfl
  | cons m ms ih => simp only [List.foldl, prvhash42_32_setf, ih]

theorem foldl42_64_setf (msgs : List Nat) (ctx : PRVRNG_CTX) (x : Option Nat) :
    List.foldl prvrng_prvhash42_64 { ctx with f := x } msgs
      = { List.foldl prvrng_prvhash42_64 ctx msgs with f := x } := by
  induction msgs generalizing ctx with
  | nil => rfl
  | cons m ms ih => simp only [List.foldl, prvhash42_64_setf, ih]

theorem preInitLoop32_eq (dev : Nat → Nat) (n : Nat) (ctx : PRVRNG_CTX) (p : Nat)
    (hf : ctx.f = some p) :
    preInitLoop32 dev n ctx =
      { List.foldl prvrng_prvhash42_32 ctx ((List.range n).map (fun i => dev (p + i) % 256))
        with f := some (p + n) } := by
  induction n generalizing ctx p with
  | zero => cases ctx; simp_all [preInitLoop32]
  | succ k ih =>
    simp only [preInitLoop32, gen_entropy_eq, hf, Option.map_some', entByte]
    rw [ih _ (p + 1) rfl, prvhash42_32_setf, foldl42_32_setf]
    simp only [List.range_succ_eq_map, List.map_cons, List.map_map, List.foldl, Nat.add_zero]
    have e : (fun i => dev (p + 1 + i) % 256) = (fun i => dev (p + i) % 256) ∘ Nat.succ := by
      funext i; simp only [Function.comp]; congr 2; omega
    rw [e]
    simp only [PRVRNG_CTX.mk.injEq, and_true, true_and]
    congr 1; omega

theorem preInitLoop64_eq (dev : Nat → Nat) (n : Nat) (ctx : PRVRNG_CTX) (p : Nat)
    (hf : ctx.f = some p) :
    preInitLoop64 dev n ctx =
      { List.foldl prvrng_prvhash42_64 ctx ((List.range n).map (fun i => dev (p + i) % 256))
        with f := some (p + n) } := by
  induction n generalizing ctx p with
  | zero => cases ctx; simp_all [preInitLoop64]
  | succ k ih =>
    simp only [preInitLoop64, gen_entropy_eq, hf, Option.map_some', entByte]
    rw [ih _ (p + 1) rfl, prvhash42_64_setf, foldl42_64_setf]
    simp only [List.range_succ_eq_map, List.map_cons, List.map_map, List.foldl, Nat.add_zero]
    have e : (fun i => dev (p + 1 + i) % 256) = (fun i => dev (p + i) % 256) ∘ Nat.succ := by
      funext i; simp only [Function.comp]; congr 2; omega
    rw [e]
    simp only [PRVRNG_CTX.mk.injEq, and_true, true_and]
    congr 1; omega

theorem foldl42_32_counters (msgs : List Nat) (ctx : PRVRNG_CTX) :
    (List.foldl prvrng_prvhash42_32 ctx msgs).EntCtr = ctx.EntCtr ∧
    (List.foldl prvrng_prvhash42_32 ctx msgs).HashLeft = ctx.HashLeft ∧
    (List.foldl prvrng_prvhash42_32 ctx msgs).LastHash = ctx.LastHash := by
  induction msgs generalizing ctx with
  | nil => exact ⟨rfl, rfl, rfl⟩
  | cons m ms ih => simpa only [List.foldl] using ih (prvrng_prvhash42_32 ctx m)

theorem foldl42_64_counters (msgs : List Nat) (ctx : PRVRNG_CTX) :
    (List.foldl prvrng_prvhash42_64 ctx msgs).EntCtr = ctx.EntCtr ∧
    (List.foldl prvrng_prvhash42_64 ctx msgs).HashLeft = ctx.HashLeft ∧
    (List.foldl prvrng_prvhash42_64 ctx msgs).LastHash = ctx.LastHash := by
  induction msgs generalizing ctx with
  | nil => exact ⟨rfl, rfl, rfl⟩
  | cons m ms ih => simpa only [List.foldl] using ih (prvrng_prvhash42_64 ctx m)

theorem mult_odd (lcg : Nat) (hl : lcg < 2 ^ 64) : sub64 lcg (not64 lcg) % 2 = 1 := by
  simp only [sub64, not64]; omega

theorem odd_coprime_pow (m : Nat) (hm : m % 2 = 1) : Nat.Coprime m (2 ^ 64) :=
  Nat.Coprime.pow_right 64 (Nat.coprime_two_right.mpr (Nat.odd_iff.mpr hm))

theorem odd_mul_inj (m a b : Nat) (hm : m % 2 = 1) (ha : a < 2 ^ 64) (hb : b < 2 ^ 64)
    (h : (a * m) % 2 ^ 64 = (b * m) % 2 ^ 64) : a = b := by
  have hc : Nat.gcd (2 ^ 64) m = 1 := (odd_coprime_pow m hm).symm
  have h1 : a ≡ b [MOD 2 ^ 64] := Nat.ModEq.cancel_right_of_coprime hc h
  have h2 : a % 2 ^ 64 = b % 2 ^ 64 := h1
  rw [Nat.mod_eq_of_lt ha, Nat.mod_eq_of_lt hb] at h2
  exact h2

theorem odd_mul_surj (m y : Nat) (hm : m % 2 = 1) (hy : y < 2 ^ 64) :
    ∃ x, x < 2 ^ 64 ∧ (x * m) % 2 ^ 64 = y := by
  obtain ⟨inv, hinv⟩ := Nat.exists_mul_emod_eq_one_of_coprime (odd_coprime_pow m hm)
    (by norm_num : 1 < 2 ^ 64)
  refine ⟨(y * inv) % 2 ^ 64, Nat.mod_lt _ (by norm_num), ?_⟩
  have h1 : (y * inv) % 2 ^ 64 * m ≡ y * inv * m [MOD 2 ^ 64] :=
    Nat.ModEq.mul_right m (Nat.mod_modEq _ _)
  have h2 : y * inv * m = y * (m * inv) := by ring
  have h3 : y * (m * inv) ≡ y * 1 [MOD 2 ^ 64] :=
    Nat.ModEq.mul_left y (by show (m * inv) % 2 ^ 64 = 1 % 2 ^ 64; rw [hinv]; norm_num)
  have h4 : (y * inv) % 2 ^ 64 * m ≡ y [MOD 2 ^ 64] := by
    rw [h2] at h1
    simpa using h1.trans h3
  have h5 : ((y * inv) % 2 ^ 64 * m) % 2 ^ 64 = y % 2 ^ 64 := h4
  rw [h5, Nat.mod_eq_of_lt hy]

theorem state64_lt (S l H : Nat) (hl : l < 2 ^ 64) :
    (state64 S l H).1 < 2 ^ 64 ∧ (state64 S l H).2.1 < 2 ^ 64 ∧ (state64 S l H).2.2 < 2 ^ 64 := by
  simp only [state64, prvhash_core64]
  exact ⟨Nat.xor_lt_two_pow (Nat.mod_lt _ (by norm_num)) hl, Nat.mod_lt _ (by norm_num),
    Nat.mod_lt _ (by norm_num)⟩

theorem state64i_lt (S l H : Nat) :
    (state64i S l H).1 < 2 ^ 64 ∧ (state64i S l H).2.1 < 2 ^ 64 ∧
      (state64i S l H).2.2 < 2 ^ 64 := by
  simp only [state64i, prvhash_core64i]
  exact ⟨Nat.mod_lt _ (by norm_num), Nat.mod_lt _ (by norm_num), Nat.mod_lt _ (by norm_num)⟩

theorem add_not64_cancel (l x y : Nat) (hx : x < 2 ^ 64) (hy : y < 2 ^ 64)
    (h : (l + not64 x) % 2 ^ 64 = (l + not64 y) % 2 ^ 64) : x = y := by
  simp only [not64] at h; omega

theorem add_mod_cancel64 (a b r : Nat) (ha : a < 2 ^ 64) (hb : b < 2 ^ 64)
    (h : (a + r) % 2 ^ 64 = (b + r) % 2 ^ 64) : a = b := by
  omega

theorem add_not64_cancel_left (a b x : Nat) (ha : a < 2 ^ 64) (hb : b < 2 ^ 64)
    (h : (a + not64 x) % 2 ^ 64 = (b + not64 x) % 2 ^ 64) : a = b :=
  add_mod_cancel64 a b _ ha hb h

theorem state64_inj (S1 l1 H1 S2 l2 H2 : Nat) (hS1 : S1 < 2 ^ 64) (_hl1 : l1 < 2 ^ 64)
    (hH1 : H1 < 2 ^ 64) (hS2 : S2 < 2 ^ 64) (hl2 : l2 < 2 ^ 64) (hH2 : H2 < 2 ^ 64)
    (h : state64 S1 l1 H1 = state64 S2 l2 H2) : S1 = S2 ∧ l1 = l2 ∧ H1 = H2 := by
  simp only [state64, prvhash_core64, Prod.mk.injEq] at h
  obtain ⟨hs, hl, hh⟩ := h
  rw [hh] at hs
  have el : l1 = l2 := Nat.xor_right_injective hs
  subst el
  have emx := add_not64_cancel l1 _ _ (Nat.mod_lt _ (by norm_num)) (Nat.mod_lt _ (by norm_num)) hl
  rw [emx] at hh
  have eH := add_mod_cancel64 H1 H2 _ hH1 hH2 hh
  exact ⟨odd_mul_inj _ S1 S2 (mult_odd l1 hl2) hS1 hS2 emx, rfl, eH⟩

theorem state64i_inj (S1 l1 H1 S2 l2 H2 : Nat) (hS1 : S1 < 2 ^ 64) (hl1 : l1 < 2 ^ 64)
    (hH1 : H1 < 2 ^ 64) (hS2 : S2 < 2 ^ 64) (hl2 : l2 < 2 ^ 64) (hH2 : H2 < 2 ^ 64)
    (h : state64i S1 l1 H1 = state64i S2 l2 H2) : S1 = S2 ∧ l1 = l2 ∧ H1 = H2 := by
  simp only [state64i, prvhash_core64i, Prod.mk.injEq] at h
  obtain ⟨hs, hl, hh⟩ := h
  rw [hs] at hl hh
  have el := add_not64_cancel_left l1 l2 _ hl1 hl2 hl
  subst el
  have eH := add_mod_cancel64 H1 H2 _ hH1 hH2 hh
  subst eH
  have ex := odd_mul_inj _ (S1 ^^^ (H1 ^^^ l1)) (S2 ^^^ (H1 ^^^ l1)) (mult_odd l1 hl1)
    (Nat.xor_lt_two_pow hS1 (Nat.xor_lt_two_pow hH1 hl1))
    (Nat.xor_lt_two_pow hS2 (Nat.xor_lt_two_pow hH1 hl1)) hs
  exact ⟨Nat.xor_left_injective ex, rfl, rfl⟩

theorem state64_surj (T1 T2 T3 : Nat) (h1 : T1 < 2 ^ 64) (h2 : T2 < 2 ^ 64) (h3 : T3 < 2 ^ 64) :
    ∃ S l H, S < 2 ^ 64 ∧ l < 2 ^ 64 ∧ H < 2 ^ 64 ∧ state64 S l H = (T1, T2, T3) := by
  let f : Fin (2 ^ 64) × Fin (2 ^ 64) × Fin (2 ^ 64) →
      Fin (2 ^ 64) × Fin (2 ^ 64) × Fin (2 ^ 64) := fun x =>
    (⟨(state64 x.1.val x.2.1.val x.2.2.val).1, (state64_lt _ _ _ x.2.1.isLt).1⟩,
     ⟨(state64 x.1.val x.2.1.val x.2.2.val).2.1, (state64_lt _ _ _ x.2.1.isLt).2.1⟩,
     ⟨(state64 x.1.val x.2.1.val x.2.2.val).2.2, (state64_lt _ _ _ x.2.1.isLt).2.2⟩)
  have hinj : Function.Injective f := by
    intro x y hxy
    have e1 := congrArg (fun t => t.1.val) hxy
    have e2 := congrArg (fun t => t.2.1.val) hxy
    have e3 := congrArg (fun t => t.2.2.val) hxy
    have e : state64 x.1.val x.2.1.val x.2.2.val = state64 y.1.val y.2.1.val y.2.2.val :=
      Prod.ext e1 (Prod.ext e2 e3)
    obtain ⟨a, b, c⟩ := state64_inj _ _ _ _ _ _ x.1.isLt x.2.1.isLt x.2.2.isLt y.1.isLt
      y.2.1.isLt y.2.2.isLt e
    exact Prod.ext (Fin.ext a) (Prod.ext (Fin.ext b) (Fin.ext c))
  obtain ⟨x, hx⟩ := (Finite.injective_iff_surjective.mp hinj) (⟨T1, h1⟩, ⟨T2, h2⟩, ⟨T3, h3⟩)
  have e1 := congrArg (fun t => t.1.val) hx
  have e2 := congrArg (fun t => t.2.1.val) hx
  have e3 := congrArg (fun t => t.2.2.val) hx
  exact ⟨x.1.val, x.2.1.val, x.2.2.val, x.1.isLt, x.2.1.isLt, x.2.2.isLt,
    Prod.ext e1 (Prod.ext e2 e3)⟩

theorem state64i_surj (T1 T2 T3 : Nat) (h1 : T1 < 2 ^ 64) (h2 : T2 < 2 ^ 64)
    (h3 : T3 < 2 ^ 64) :
    ∃ S l H, S < 2 ^ 64 ∧ l < 2 ^ 64 ∧ H < 2 ^ 64 ∧ state64i S l H = (T1, T2, T3) := by
  let f : Fin (2 ^ 64) × Fin (2 ^ 64) × Fin (2 ^ 64) →
      Fin (2 ^ 64) × Fin (2 ^ 64) × Fin (2 ^ 64) := fun x =>
    (⟨(state64i x.1.val x.2.1.val x.2.2.val).1, (state64i_lt _ _ _).1⟩,
     ⟨(state64i x.1.val x.2.1.val x.2.2.val).2.1, (state64i_lt _ _ _).2.1⟩,
     ⟨(state64i x.1.val x.2.1.val x.2.2.val).2.2, (state64i_lt _ _ _).2.2⟩)
  have hinj : Function.Injective f := by
    intro x y hxy
    have e1 := congrArg (fun t => t.1.val) hxy
    have e2 := congrArg (fun t => t.2.1.val) hxy
    have e3 := congrArg (fun t => t.2.2.val) hxy
    have e : state64i x.1.val x.2.1.val x.2.2.val = state64i y.1.val y.2.1.val y.2.2.val :=
      Prod.ext e1 (Prod.ext e2 e3)
    obtain ⟨a, b, c⟩ := state64i_inj _ _ _ _ _ _ x.1.isLt x.2.1.isLt x.2.2.isLt y.1.isLt
      y.2.1.isLt y.2.2.isLt e
    exact Prod.ext (Fin.ext a) (Prod.ext (Fin.ext b) (Fin.ext c))
  obtain ⟨x, hx⟩ := (Finite.injective_iff_surjective.mp hinj) (⟨T1, h1⟩, ⟨T2, h2⟩, ⟨T3, h3⟩)
  have e1 := congrArg (fun t => t.1.val) hx
  have e2 := congrArg (fun t => t.2.1.val) hx
  have e3 := congrArg (fun t => t.2.2.val) hx
  exact ⟨x.1.val, x.2.1.val, x.2.2.val, x.1.isLt, x.2.1.isLt, x.2.2.isLt,
    Prod.ext e1 (Prod.ext e2 e3)⟩

theorem ofBytesLE_eq_ofDigits (L : List Nat) : ofBytesLE L = Nat.ofDigits 256 L := by
  induction L with
  | nil => rfl
  | cons b bs ih => simp only [ofBytesLE, Nat.ofDigits_cons, ih, Nat.cast_id]

theorem ofBytesLE_inj (L1 L2 : List Nat) (h1 : ∀ x ∈ L1, x < 256) (h2 : ∀ x ∈ L2, x < 256)
    (n1 : ∀ h : L1 ≠ [], L1.getLast h ≠ 0) (n2 : ∀ h : L2 ≠ [], L2.getLast h ≠ 0)
    (h : ofBytesLE L1 = ofBytesLE L2) : L1 = L2 := by
  rw [ofBytesLE_eq_ofDigits, ofBytesLE_eq_ofDigits] at h
  have d1 := Nat.digits_ofDigits 256 (by norm_num) L1 h1 n1
  have d2 := Nat.digits_ofDigits 256 (by norm_num) L2 h2 n2
  rw [← d1, ← d2, h]

theorem lpu64ec_ofBytes (le : Bool) (buf : List Nat) (fb : Nat) (hl : buf.length ≤ 7)
    (hb : ∀ x ∈ buf, x < 256) (hfb : fb < 256) :
    prvhash_lpu64ec le buf 0 buf.length fb = some (ofBytesLE (buf ++ [fb])) := by
  rcases buf with _ | ⟨b0, _ | ⟨b1, _ | ⟨b2, _ | ⟨b3, _ | ⟨b4, _ | ⟨b5, _ | ⟨b6, _ | ⟨b7, t⟩⟩⟩⟩⟩⟩⟩⟩
  · rw [show ([] : List Nat).length = 0 from rfl, lpu64ec_len0 le fb hfb]
    simp [Finset.sum_range_succ, ofBytesLE]
  · rw [show [b0].length = 1 from rfl, lpu64ec_len1 le b0 fb (hb b0 (by simp)) hfb]
    simp [Finset.sum_range_succ, ofBytesLE]; ring
  · rw [show [b0, b1].length = 2 from rfl,
      lpu64ec_len2 le b0 b1 fb (hb b0 (by simp)) (hb b1 (by simp)) hfb]
    simp [Finset.sum_range_succ, ofBytesLE]; ring
  · rw [show [b0, b1, b2].length = 3 from rfl,
      lpu64ec_len3 le b0 b1 b2 fb (hb b0 (by simp)) (hb b1 (by simp)) (hb b2 (by simp)) hfb]
    simp [Finset.sum_range_succ, ofBytesLE]; ring
  · rw [show [b0, b1, b2, b3].length = 4 from rfl,
      lpu64ec_len4 le b0 b1 b2 b3 fb (hb b0 (by simp)) (hb b1 (by simp)) (hb b2 (by simp))
      (hb b3 (by simp)) hfb]
    simp [Finset.sum_range_succ, ofBytesLE]; ring
  · rw [show [b0, b1, b2, b3, b4].length = 5 from rfl,
      lpu64ec_len5 le b0 b1 b2 b3 b4 fb (hb b0 (by simp)) (hb b1 (by simp))
      (hb b2 (by simp)) (hb b3 (by simp)) (hb b4 (by simp)) hfb]
    simp [Finset.sum_range_succ, ofBytesLE]; ring
  · rw [show [b0, b1, b2, b3, b4, b5].length = 6 from rfl,
      lpu64ec_len6 le b0 b1 b2 b3 b4 b5 fb (hb b0 (by simp)) (hb b1 (by simp))
      (hb b2 (by simp)) (hb b3 (by simp)) (hb b4 (by simp)) (hb b5 (by simp)) hfb]
    simp [Finset.sum_range_succ, ofBytesLE]; ring
  · rw [show [b0, b1, b2, b3, b4, b5, b6].length = 7 from rfl,
      lpu64ec_len7 le b0 b1 b2 b3 b4 b5 b6 fb (hb b0 (by simp)) (hb b1 (by simp))
      (hb b2 (by simp)) (hb b3 (by simp)) (hb b4 (by simp)) (hb b5 (by simp))
      (hb b6 (by simp)) hfb]
    simp [Finset.sum_range_succ, ofBytesLE]; ring
  · simp at hl

/-! ## Claims C11-C20 -/

/-- C11: a call of `prvrng_gen32` (`k = 4`) or `prvrng_gen64` (`k = 8`) on an open
stream at position `pos` that starts with `HashLeft == 0` and `EntCtr == 0` reads the
two bytes `e = dev pos` and `msg = dev (pos + 1)` in this order, runs the round with
that `msg` and leaves `EntCtr = (e + 1) * k - 1`; with `EntCtr != 0` it reads no byte,
runs the round with `msg = 0` and leaves `EntCtr` decreased by 1. -/
theorem gen_refill_entropy (dev : Nat → Nat) (ctx : PRVRNG_CTX) (pos : Nat)
    (hf : ctx.f = some pos) (hH : ctx.HashLeft = 0) :
    (ctx.EntCtr = 0 →
      ((prvrng_gen32 dev ctx).2.f = some (pos + 2) ∧
        (prvrng_gen32 dev ctx).2.EntCtr = ((dev pos % 256 : Nat) + 1) * 4 - 1 ∧
        ((prvrng_gen32 dev ctx).2.Seed, (prvrng_gen32 dev ctx).2.lcg,
          (prvrng_gen32 dev ctx).2.Hash)
          = refRound42_32 ctx.Seed ctx.lcg ctx.Hash (dev (pos + 1) % 256)) ∧
      ((prvrng_gen64 dev ctx).2.f = some (pos + 2) ∧
        (prvrng_gen64 dev ctx).2.EntCtr = ((dev pos % 256 : Nat) + 1) * 8 - 1 ∧
        ((prvrng_gen64 dev ctx).2.Seed, (prvrng_gen64 dev ctx).2.lcg,
          (prvrng_gen64 dev ctx).2.Hash)
          = refRound42_64 ctx.Seed ctx.lcg ctx.Hash (dev (pos + 1) % 256))) ∧
    (ctx.EntCtr ≠ 0 →
      ((prvrng_gen32 dev ctx).2.f = some pos ∧
        (prvrng_gen32 dev ctx).2.EntCtr = ctx.EntCtr - 1 ∧
        ((prvrng_gen32 dev ctx).2.Seed, (prvrng_gen32 dev ctx).2.lcg,
          (prvrng_gen32 dev ctx).2.Hash)
          = refRound42_32 ctx.Seed ctx.lcg ctx.Hash 0) ∧
      ((prvrng_gen64 dev ctx).2.f = some pos ∧
        (prvrng_gen64 dev ctx).2.EntCtr = ctx.EntCtr - 1 ∧
        ((prvrng_gen64 dev ctx).2.Seed, (prvrng_gen64 dev ctx).2.lcg,
          (prvrng_gen64 dev ctx).2.Hash)
          = refRound42_64 ctx.Seed ctx.lcg ctx.Hash 0)) := by
  have a32 := gen32_refill_state dev ctx pos hf hH
  have a64 := gen64_refill_state dev ctx pos hf hH
  have t32 := gen32_refill_triple dev ctx hH
  have t64 := gen64_refill_triple dev ctx hH
  constructor
  · intro hE
    obtain ⟨f32, e32, m32⟩ := a32.1 hE
    obtain ⟨f64, e64, _⟩ := a64.1 hE
    rw [m32] at t32 t64
    exact ⟨⟨f32, e32, t32⟩, ⟨f64, e64, t64⟩⟩
  · intro hE
    obtain ⟨f32, e32, m32⟩ := a32.2 hE
    obtain ⟨f64, e64, _⟩ := a64.2 hE
    rw [m32] at t32 t64
    exact ⟨⟨f32, e32, t32⟩, ⟨f64, e64, t64⟩⟩

/-- C11, instances: the first refill after initialisation with device bytes `0xFF`
reads two bytes and leaves `EntCtr` at `256 * 4 - 1` and `256 * 8 - 1`; a refill with
`EntCtr = 1` reads none and leaves `EntCtr = 0`. -/
theorem gen_refill_entropy_witness :
    ((prvrng_gen32 devFF initCtx).2.f = some 2 ∧ (prvrng_gen32 devFF initCtx).2.EntCtr = 1023 ∧
      (prvrng_gen64 devFF initCtx).2.f = some 2 ∧
      (prvrng_gen64 devFF initCtx).2.EntCtr = 2047) ∧
    ((prvrng_gen32 dev00 smallCtx).2.f = some 0 ∧ (prvrng_gen32 dev00 smallCtx).2.EntCtr = 0 ∧
      (prvrng_gen64 dev00 smallCtx).2.f = some 0 ∧
      (prvrng_gen64 dev00 smallCtx).2.EntCtr = 0) :=
  have a := (gen_refill_entropy devFF initCtx 0 rfl rfl).1 rfl
  have b := (gen_refill_entropy dev00 smallCtx 0 rfl rfl).2 (by decide)
  ⟨⟨a.1.1, a.1.2.1, a.2.1, a.2.2.1⟩, ⟨b.1.1, b.1.2.1, b.2.1, b.2.2.1⟩⟩

/-- C12: from a state with `HashLeft == 0` (and a 64-bit `Hash` field) the next 8 calls
of `prvrng_gen64` run the round in the first call only and return the 8 bytes of the
`Hash` field after that round, least significant first, leaving `HashLeft` 0; the
next 4 calls of `prvrng_gen32` run one round and return the 4 low bytes of `Hash`. -/
theorem gen_word_bytes (dev : Nat → Nat) (ctx : PRVRNG_CTX) (hH : ctx.HashLeft = 0)
    (hHash : ctx.Hash < 2 ^ 64) :
    (ofBytesLE (outs64 dev 8 ctx) = (prvrng_gen64 dev ctx).2.Hash ∧
      (run64 dev 8 ctx).HashLeft = 0 ∧
      (∀ k, 1 ≤ k → k < 8 → (run64 dev k ctx).HashLeft ≠ 0) ∧
      (run64 dev 8 ctx).Seed = (prvrng_gen64 dev ctx).2.Seed ∧
      (run64 dev 8 ctx).lcg = (prvrng_gen64 dev ctx).2.lcg ∧
      (run64 dev 8 ctx).Hash = (prvrng_gen64 dev ctx).2.Hash ∧
      (run64 dev 8 ctx).EntCtr = (prvrng_gen64 dev ctx).2.EntCtr ∧
      (run64 dev 8 ctx).f = (prvrng_gen64 dev ctx).2.f ∧
      ((prvrng_gen64 dev ctx).2.Seed, (prvrng_gen64 dev ctx).2.lcg,
        (prvrng_gen64 dev ctx).2.Hash)
        = refRound42_64 ctx.Seed ctx.lcg ctx.Hash (refillMsg dev ctx)) ∧
    (ofBytesLE (outs32 dev 4 ctx) = (prvrng_gen32 dev ctx).2.Hash % 2 ^ 32 ∧
      (run32 dev 4 ctx).HashLeft = 0 ∧
      (∀ k, 1 ≤ k → k < 4 → (run32 dev k ctx).HashLeft ≠ 0) ∧
      (run32 dev 4 ctx).Seed = (prvrng_gen32 dev ctx).2.Seed ∧
      (run32 dev 4 ctx).lcg = (prvrng_gen32 dev ctx).2.lcg ∧
      (run32 dev 4 ctx).Hash = (prvrng_gen32 dev ctx).2.Hash ∧
      (run32 dev 4 ctx).EntCtr = (prvrng_gen32 dev ctx).2.EntCtr ∧
      (run32 dev 4 ctx).f = (prvrng_gen32 dev ctx).2.f ∧
      ((prvrng_gen32 dev ctx).2.Seed, (prvrng_gen32 dev ctx).2.lcg,
        (prvrng_gen32 dev ctx).2.Hash)
        = refRound42_32 ctx.Seed ctx.lcg ctx.Hash (refillMsg dev ctx)) := by
  constructor
  · obtain ⟨hb, hL, hl⟩ := gen64_first dev ctx hH
    have hlt := gen64_hash_lt dev ctx hH hHash
    have d7 := drain64 dev 7 (prvrng_gen64 dev ctx).2 (by rw [hl]; norm_num)
    have e8 : run64 dev 8 ctx = run64 dev 7 (prvrng_gen64 dev ctx).2 := rfl
    have o8 : outs64 dev 8 ctx = toBytesLE 8 (prvrng_gen64 dev ctx).2.Hash := by
      show (prvrng_gen64 dev ctx).1 :: outs64 dev 7 (prvrng_gen64 dev ctx).2 = _
      rw [d7.1, hb, hL]
      rfl
    refine ⟨?_, ?_, ?_, ?_, ?_, ?_, ?_, ?_, gen64_refill_triple dev ctx hH⟩
    · rw [o8, ofBytesLE_toBytesLE]
      exact Nat.mod_eq_of_lt (by norm_num; exact hlt)
    · rw [e8, d7.2]; show (prvrng_gen64 dev ctx).2.HashLeft - ((7 : Nat) : Int) = 0
      rw [hl]; norm_num
    · intro k h1 h8
      obtain ⟨j, rfl⟩ : ∃ j, k = j + 1 := ⟨k - 1, by omega⟩
      have dj := drain64 dev j (prvrng_gen64 dev ctx).2 (by rw [hl]; omega)
      show (run64 dev j (prvrng_gen64 dev ctx).2).HashLeft ≠ 0
      rw [dj.2]
      show (prvrng_gen64 dev ctx).2.HashLeft - (j : Int) ≠ 0
      rw [hl]; omega
    all_goals rw [e8, d7.2]
  · obtain ⟨hb, hL, hl⟩ := gen32_first dev ctx hH
    have d3 := drain32 dev 3 (prvrng_gen32 dev ctx).2 (by rw [hl]; norm_num)
    have e4 : run32 dev 4 ctx = run32 dev 3 (prvrng_gen32 dev ctx).2 := rfl
    have o4 : outs32 dev 4 ctx = toBytesLE 4 (prvrng_gen32 dev ctx).2.Hash := by
      show (prvrng_gen32 dev ctx).1 :: outs32 dev 3 (prvrng_gen32 dev ctx).2 = _
      rw [d3.1, hb, hL]
      rfl
    refine ⟨?_, ?_, ?_, ?_, ?_, ?_, ?_, ?_, gen32_refill_triple dev ctx hH⟩
    · rw [o4, ofBytesLE_toBytesLE]
      norm_num
    · rw [e4, d3.2]; show (prvrng_gen32 dev ctx).2.HashLeft - ((3 : Nat) : Int) = 0
      rw [hl]; norm_num
    · intro k h1 h4
      obtain ⟨j, rfl⟩ : ∃ j, k = j + 1 := ⟨k - 1, by omega⟩
      have dj := drain32 dev j (prvrng_gen32 dev ctx).2 (by rw [hl]; omega)
      show (run32 dev j (prvrng_gen32 dev ctx).2).HashLeft ≠ 0
      rw [dj.2]
      show (prvrng_gen32 dev ctx).2.HashLeft - (j : Int) ≠ 0
      rw [hl]; omega
    all_goals rw [e4, d3.2]

/-- C12, instance: the first word after initialisation, device bytes `0xFF`. -/
theorem gen_word_bytes_witness :
    ofBytesLE (outs64 devFF 8 initCtx) = (prvrng_gen64 devFF initCtx).2.Hash ∧
    (run64 devFF 8 initCtx).HashLeft = 0 ∧
    ofBytesLE (outs32 devFF 4 initCtx) = (prvrng_gen32 devFF initCtx).2.Hash % 2 ^ 32 ∧
    (run32 devFF 4 initCtx).HashLeft = 0 :=
  have a := gen_word_bytes devFF initCtx rfl (by decide)
  ⟨a.1.1, a.1.2.1, a.2.1, a.2.2.1⟩

/-- C13: when the entropy source opens and `DoPreInit` is false, `prvrng_init32` and
`prvrng_init64` return 1 and leave the stream at its first byte (nothing read),
`Hash`, `EntCtr`, `HashLeft`, `LastHash` at 0, `lcg = 15267459991392010589` and
`Seed = 7928988912013905173`, two distinct non-zero 64-bit words. -/
theorem init_no_prewarm (dev : Nat → Nat) (ctx : PRVRNG_CTX) :
    prvrng_init32 dev true ctx false = (1, initCtx) ∧
    prvrng_init64 dev true ctx false = (1, initCtx) ∧
    initCtx.f = some 0 ∧ initCtx.Hash = 0 ∧ initCtx.EntCtr = 0 ∧ initCtx.HashLeft = 0 ∧
    initCtx.LastHash = 0 ∧ initCtx.lcg = 15267459991392010589 ∧
    initCtx.Seed = 7928988912013905173 ∧
    initCtx.lcg < 2 ^ 64 ∧ initCtx.Seed < 2 ^ 64 ∧ initCtx.lcg ≠ 0 ∧ initCtx.Seed ≠ 0 ∧
    initCtx.lcg ≠ initCtx.Seed := by
  refine ⟨rfl, rfl, rfl, rfl, rfl, rfl, rfl, rfl, rfl, ?_, ?_, ?_, ?_, ?_⟩ <;>
    simp only [initCtx] <;> norm_num

/-- C14: `prvrng_init32` and `prvrng_init64` return 0 exactly when the entropy source
does not open, for either value of `DoPreInit`; in that case there is no stream to
read from and `Hash`, `lcg`, `Seed`, `EntCtr`, `HashLeft` and `LastHash` keep the
values they had before the call. -/
theorem init_fail (dev : Nat → Nat) (ctx : PRVRNG_CTX) (openOk DoPreInit : Bool) :
    ((prvrng_init32 dev openOk ctx DoPreInit).1 = 0 ↔ openOk = false) ∧
    ((prvrng_init64 dev openOk ctx DoPreInit).1 = 0 ↔ openOk = false) ∧
    (prvrng_init32 dev false ctx DoPreInit).2 = { ctx with f := none } ∧
    (prvrng_init64 dev false ctx DoPreInit).2 = { ctx with f := none } := by
  cases openOk <;> cases DoPreInit <;> simp [prvrng_init32, prvrng_init64]

/-- C15: for a buffer of `l ≤ 7` bytes every read `prvhash_lpu64ec` performs has a
value, that is, lies below index `l` (the memory holds exactly the `l` bytes), the
4-byte read of `prvhash_lu32ec` included; and bytes stored at or past the end
position do not change the result. -/
theorem lpu64ec_reads_in_bounds (le : Bool) (buf post : List Nat) (fb : Nat)
    (hl : buf.length ≤ 7) :
    (prvhash_lpu64ec le buf 0 buf.length fb).isSome = true ∧
    prvhash_lpu64ec le (buf ++ post) 0 buf.length fb
      = prvhash_lpu64ec le buf 0 buf.length fb := by
  rcases buf with _ | ⟨b0, _ | ⟨b1, _ | ⟨b2, _ | ⟨b3, _ | ⟨b4, _ | ⟨b5, _ | ⟨b6, _ | ⟨b7, t⟩⟩⟩⟩⟩⟩⟩⟩
  · simp [prvhash_lpu64ec]
  · simp [prvhash_lpu64ec]
  · simp [prvhash_lpu64ec]
  · simp [prvhash_lpu64ec]
  · simp [prvhash_lpu64ec, prvhash_lu32ec]
  · simp [prvhash_lpu64ec, prvhash_lu32ec]
  · simp [prvhash_lpu64ec, prvhash_lu32ec]
  · simp [prvhash_lpu64ec, prvhash_lu32ec]
  · simp at hl

/-- C15, instance: a 4-byte tail, where the 4-byte block read is taken; for contrast,
the same call with an end position one past the memory has no value. -/
theorem lpu64ec_reads_in_bounds_witness :
    ((prvhash_lpu64ec true [1, 2, 3, 4] 0 4 0x80).isSome = true ∧
      prvhash_lpu64ec true ([1, 2, 3, 4] ++ [9, 9]) 0 4 0x80
        = prvhash_lpu64ec true [1, 2, 3, 4] 0 4 0x80) ∧
    prvhash_lpu64ec true [1, 2, 3, 4] 0 5 0x80 = none :=
  ⟨lpu64ec_reads_in_bounds true [1, 2, 3, 4] [9, 9] 0x80 (by decide), by decide⟩

/-- C16: a call of `prvrng_gen32` or `prvrng_gen64` that starts with `HashLeft != 0`
returns the low 8 bits of `LastHash` and changes nothing but `LastHash`, which is
shifted right by 8 bits, and `HashLeft`, which decreases by 1: the stream, `Seed`,
`lcg`, `Hash` and `EntCtr` stay as they were. -/
theorem gen_drain (dev : Nat → Nat) (ctx : PRVRNG_CTX) (h : ctx.HashLeft ≠ 0) :
    prvrng_gen32 dev ctx = (ctx.LastHash % 2 ^ 8,
      { ctx with LastHash := ctx.LastHash / 2 ^ 8, HashLeft := ctx.HashLeft - 1 }) ∧
    prvrng_gen64 dev ctx = (ctx.LastHash % 2 ^ 8,
      { ctx with LastHash := ctx.LastHash / 2 ^ 8, HashLeft := ctx.HashLeft - 1 }) :=
  ⟨gen32_drain_step dev ctx h, gen64_drain_step dev ctx h⟩

/-- C16, instance: `LastHash = 0x1234` with 3 bytes left returns `0x34` and leaves
`LastHash = 0x12`, `HashLeft = 2`. -/
theorem gen_drain_witness :
    prvrng_gen32 devFF { smallCtx with HashLeft := 3, LastHash := 0x1234 }
      = (0x34, { smallCtx with HashLeft := 2, LastHash := 0x12 }) ∧
    prvrng_gen64 devFF { smallCtx with HashLeft := 3, LastHash := 0x1234 }
      = (0x34, { smallCtx with HashLeft := 2, LastHash := 0x12 }) :=
  gen_drain devFF { smallCtx with HashLeft := 3, LastHash := 0x1234 } (by decide)

theorem core64_mul_link (a lcg Hash : Nat) :
    (prvhash_core64 a lcg Hash).lcg
      = (lcg + not64 ((a * sub64 lcg (not64 lcg)) % 2 ^ 64)) % 2 ^ 64 ∧
    (prvhash_core64i a lcg Hash).Seed
      = ((a ^^^ (Hash ^^^ lcg)) * sub64 lcg (not64 lcg)) % 2 ^ 64 :=
  ⟨rfl, rfl⟩

theorem core64_mul_inj (a b lcg Hash : Nat) (hl : lcg < 2 ^ 64) (ha : a < 2 ^ 64)
    (hb : b < 2 ^ 64)
    (h : (prvhash_core64 a lcg Hash).lcg = (prvhash_core64 b lcg Hash).lcg) : a = b := by
  rw [(core64_mul_link a lcg Hash).1, (core64_mul_link b lcg Hash).1] at h
  exact odd_mul_inj _ a b (mult_odd lcg hl) ha hb
    (add_not64_cancel lcg _ _ (Nat.mod_lt _ (by norm_num)) (Nat.mod_lt _ (by norm_num)) h)

theorem add_not64_target (lcg y : Nat) (_hl : lcg < 2 ^ 64) (hy : y < 2 ^ 64) :
    ∃ mx, mx < 2 ^ 64 ∧ (lcg + not64 mx) % 2 ^ 64 = y := by
  refine ⟨(lcg + (2 ^ 64 - 1 - y)) % 2 ^ 64, Nat.mod_lt _ (by norm_num), ?_⟩
  simp only [not64]; omega

theorem core64_mul_surj (lcg Hash y : Nat) (hl : lcg < 2 ^ 64) (hy : y < 2 ^ 64) :
    ∃ x, x < 2 ^ 64 ∧ (prvhash_core64 x lcg Hash).lcg = y := by
  obtain ⟨mx, hmx, e⟩ := add_not64_target lcg y hl hy
  obtain ⟨x, hx, ex⟩ := odd_mul_surj _ mx (mult_odd lcg hl) hmx
  refine ⟨x, hx, ?_⟩
  rw [(core64_mul_link x lcg Hash).1, ex, e]

theorem core64i_mul_inj (a b lcg Hash : Nat) (hl : lcg < 2 ^ 64) (hH : Hash < 2 ^ 64)
    (ha : a < 2 ^ 64) (hb : b < 2 ^ 64)
    (h : (prvhash_core64i a lcg Hash).Seed = (prvhash_core64i b lcg Hash).Seed) : a = b := by
  rw [(core64_mul_link a lcg Hash).2, (core64_mul_link b lcg Hash).2] at h
  have hc : Hash ^^^ lcg < 2 ^ 64 := Nat.xor_lt_two_pow hH hl
  exact Nat.xor_left_injective (odd_mul_inj _ _ _ (mult_odd lcg hl)
    (Nat.xor_lt_two_pow ha hc) (Nat.xor_lt_two_pow hb hc) h)

theorem core64i_mul_surj (lcg Hash y : Nat) (hl : lcg < 2 ^ 64) (hH : Hash < 2 ^ 64)
    (hy : y < 2 ^ 64) :
    ∃ x, x < 2 ^ 64 ∧ (prvhash_core64i x lcg Hash).Seed = y := by
  obtain ⟨z, hz, ez⟩ := odd_mul_surj _ y (mult_odd lcg hl) hy
  have hc : Hash ^^^ lcg < 2 ^ 64 := Nat.xor_lt_two_pow hH hl
  refine ⟨z ^^^ (Hash ^^^ lcg), Nat.xor_lt_two_pow hz hc, ?_⟩
  rw [(core64_mul_link _ lcg Hash).2, Nat.xor_assoc, Nat.xor_self, Nat.xor_zero, ez]

/-- C17: for every 64-bit `lcg` the multiplier `lcg - ~lcg` is odd and the map
`Seed -> Seed * (lcg - ~lcg) mod 2 ^ 64` is injective and surjective on 64-bit words.
It is the map the two rounds use: `prvhash_core64` writes back
`lcg + ~(Seed * (lcg - ~lcg))` and `prvhash_core64i` writes back
`Seed = (Seed xor Hash xor lcg) * (lcg - ~lcg)`, so that, for fixed `lcg` and `Hash`,
the written-back `lcg` of `prvhash_core64` and the written-back `Seed` of
`prvhash_core64i` are injective and surjective functions of the input `Seed`. -/
theorem mul_odd_bijective (lcg Hash a b y : Nat) (hl : lcg < 2 ^ 64) (hH : Hash < 2 ^ 64)
    (ha : a < 2 ^ 64) (hb : b < 2 ^ 64) (hy : y < 2 ^ 64) :
    sub64 lcg (not64 lcg) % 2 = 1 ∧
    ((a * sub64 lcg (not64 lcg)) % 2 ^ 64 = (b * sub64 lcg (not64 lcg)) % 2 ^ 64 → a = b) ∧
    (∃ x, x < 2 ^ 64 ∧ (x * sub64 lcg (not64 lcg)) % 2 ^ 64 = y) ∧
    (prvhash_core64 a lcg Hash).lcg
      = (lcg + not64 ((a * sub64 lcg (not64 lcg)) % 2 ^ 64)) % 2 ^ 64 ∧
    (prvhash_core64i a lcg Hash).Seed
      = ((a ^^^ (Hash ^^^ lcg)) * sub64 lcg (not64 lcg)) % 2 ^ 64 ∧
    ((prvhash_core64 a lcg Hash).lcg = (prvhash_core64 b lcg Hash).lcg → a = b) ∧
    (∃ x, x < 2 ^ 64 ∧ (prvhash_core64 x lcg Hash).lcg = y) ∧
    ((prvhash_core64i a lcg Hash).Seed = (prvhash_core64i b lcg Hash).Seed → a = b) ∧
    (∃ x, x < 2 ^ 64 ∧ (prvhash_core64i x lcg Hash).Seed = y) :=
  ⟨mult_odd lcg hl, odd_mul_inj _ a b (mult_odd lcg hl) ha hb,
    odd_mul_surj _ y (mult_odd lcg hl) hy,
    (core64_mul_link a lcg Hash).1, (core64_mul_link a lcg Hash).2,
    core64_mul_inj a b lcg Hash hl ha hb, core64_mul_surj lcg Hash y hl hy,
    core64i_mul_inj a b lcg Hash hl hH ha hb, core64i_mul_surj lcg Hash y hl hH hy⟩

/-- C17, instance: `lcg = 2 ^ 63 + 5`, whose doubled value wraps, has the multiplier
11; the seeds 3 and `2 ^ 63 + 3`, whose products by 2 would collide mod `2 ^ 64`, are
kept apart by it and by both rounds, and the word 1 has a preimage. -/
theorem mul_odd_bijective_witness :
    sub64 (2 ^ 63 + 5) (not64 (2 ^ 63 + 5)) = 11 ∧
    (3 * 2) % 2 ^ 64 = ((2 ^ 63 + 3) * 2) % 2 ^ 64 ∧
    (3 * sub64 (2 ^ 63 + 5) (not64 (2 ^ 63 + 5))) % 2 ^ 64
      ≠ ((2 ^ 63 + 3) * sub64 (2 ^ 63 + 5) (not64 (2 ^ 63 + 5))) % 2 ^ 64 ∧
    (prvhash_core64 3 (2 ^ 63 + 5) 9).lcg ≠ (prvhash_core64 (2 ^ 63 + 3) (2 ^ 63 + 5) 9).lcg ∧
    (prvhash_core64i 3 (2 ^ 63 + 5) 9).Seed
      ≠ (prvhash_core64i (2 ^ 63 + 3) (2 ^ 63 + 5) 9).Seed ∧
    (∃ x, x < 2 ^ 64 ∧ (x * sub64 (2 ^ 63 + 5) (not64 (2 ^ 63 + 5))) % 2 ^ 64 = 1) ∧
    (∃ x, x < 2 ^ 64 ∧ (prvhash_core64 x (2 ^ 63 + 5) 9).lcg = 1) ∧
    (∃ x, x < 2 ^ 64 ∧ (prvhash_core64i x (2 ^ 63 + 5) 9).Seed = 1) :=
  have w := mul_odd_bijective (2 ^ 63 + 5) 9 3 (2 ^ 63 + 3) 1 (by norm_num) (by norm_num)
    (by norm_num) (by norm_num) (by norm_num)
  ⟨by decide, by decide, fun h => absurd (w.2.1 h) (by decide),
    fun h => absurd (w.2.2.2.2.2.1 h) (by decide),
    fun h => absurd (w.2.2.2.2.2.2.2.1 h) (by decide),
    w.2.2.1, w.2.2.2.2.2.2.1, w.2.2.2.2.2.2.2.2⟩

/-- C18: when the entropy source opens and `DoPreInit` is true, `prvrng_init32` reads
the 32 bytes `dev 0 .. dev 31` (the stream ends at position 32) and leaves the state
obtained from the fixed initial state by `prvrng_prvhash42_32` with these bytes as
messages, in order, with `EntCtr`, `HashLeft` and `LastHash` still 0;
`prvrng_init64` does the same with `prvrng_prvhash42_64` and also reads 32 bytes. -/
theorem init_prewarm (dev : Nat → Nat) (ctx : PRVRNG_CTX) :
    (prvrng_init32 dev true ctx true =
      (1, { List.foldl prvrng_prvhash42_32 initCtx ((List.range 32).map (fun i => dev i % 256))
            with f := some 32 }) ∧
      (prvrng_init32 dev true ctx true).2.EntCtr = 0 ∧
      (prvrng_init32 dev true ctx true).2.HashLeft = 0 ∧
      (prvrng_init32 dev true ctx true).2.LastHash = 0) ∧
    (prvrng_init64 dev true ctx true =
      (1, { List.foldl prvrng_prvhash42_64 initCtx ((List.range 32).map (fun i => dev i % 256))
            with f := some 32 }) ∧
      (prvrng_init64 dev true ctx true).2.EntCtr = 0 ∧
      (prvrng_init64 dev true ctx true).2.HashLeft = 0 ∧
      (prvrng_init64 dev true ctx true).2.LastHash = 0) := by
  have h32 : prvrng_init32 dev true ctx true =
      (1, { List.foldl prvrng_prvhash42_32 initCtx ((List.range 32).map (fun i => dev i % 256))
            with f := some 32 }) := by
    have := preInitLoop32_eq dev 32 initCtx 0 rfl
    simp only [Nat.zero_add] at this
    show ((1 : Int), preInitLoop32 dev 32 initCtx) = _
    rw [this]
  have h64 : prvrng_init64 dev true ctx true =
      (1, { List.foldl prvrng_prvhash42_64 initCtx ((List.range 32).map (fun i => dev i % 256))
            with f := some 32 }) := by
    have := preInitLoop64_eq dev 32 initCtx 0 rfl
    simp only [Nat.zero_add] at this
    show ((1 : Int), preInitLoop64 dev 32 initCtx) = _
    rw [this]
  have c32 := foldl42_32_counters ((List.range 32).map (fun i => dev i % 256)) initCtx
  have c64 := foldl42_64_counters ((List.range 32).map (fun i => dev i % 256)) initCtx
  refine ⟨⟨h32, ?_, ?_, ?_⟩, ⟨h64, ?_, ?_, ?_⟩⟩
  · rw [h32]
    generalize List.foldl prvrng_prvhash42_32 initCtx _ = x at c32 ⊢
    exact c32.1
  · rw [h32]
    generalize List.foldl prvrng_prvhash42_32 initCtx _ = x at c32 ⊢
    exact c32.2.1
  · rw [h32]
    generalize List.foldl prvrng_prvhash42_32 initCtx _ = x at c32 ⊢
    exact c32.2.2
  · rw [h64]
    generalize List.foldl prvrng_prvhash42_64 initCtx _ = x at c64 ⊢
    exact c64.1
  · rw [h64]
    generalize List.foldl prvrng_prvhash42_64 initCtx _ = x at c64 ⊢
    exact c64.2.1
  · rw [h64]
    generalize List.foldl prvrng_prvhash42_64 initCtx _ = x at c64 ⊢
    exact c64.2.2

/-- C19: the state transitions of `prvhash_core64` and `prvhash_core64i` are
bijections on triples of 64-bit words: equal updated triples come from equal input
triples, and every triple is the update of some triple. -/
theorem core64_state_bijective (S1 l1 H1 S2 l2 H2 T1 T2 T3 : Nat)
    (hS1 : S1 < 2 ^ 64) (hl1 : l1 < 2 ^ 64) (hH1 : H1 < 2 ^ 64)
    (hS2 : S2 < 2 ^ 64) (hl2 : l2 < 2 ^ 64) (hH2 : H2 < 2 ^ 64)
    (hT1 : T1 < 2 ^ 64) (hT2 : T2 < 2 ^ 64) (hT3 : T3 < 2 ^ 64) :
    ((state64 S1 l1 H1 = state64 S2 l2 H2 → S1 = S2 ∧ l1 = l2 ∧ H1 = H2) ∧
      (∃ S l H, S < 2 ^ 64 ∧ l < 2 ^ 64 ∧ H < 2 ^ 64 ∧ state64 S l H = (T1, T2, T3))) ∧
    ((state64i S1 l1 H1 = state64i S2 l2 H2 → S1 = S2 ∧ l1 = l2 ∧ H1 = H2) ∧
      (∃ S l H, S < 2 ^ 64 ∧ l < 2 ^ 64 ∧ H < 2 ^ 64 ∧ state64i S l H = (T1, T2, T3))) :=
  ⟨⟨state64_inj S1 l1 H1 S2 l2 H2 hS1 hl1 hH1 hS2 hl2 hH2, state64_surj T1 T2 T3 hT1 hT2 hT3⟩,
    ⟨state64i_inj S1 l1 H1 S2 l2 H2 hS1 hl1 hH1 hS2 hl2 hH2,
      state64i_surj T1 T2 T3 hT1 hT2 hT3⟩⟩

/-- C19, instance: the all-zero triple has a preimage under both transitions. -/
theorem core64_state_bijective_witness :
    (∃ S l H, S < 2 ^ 64 ∧ l < 2 ^ 64 ∧ H < 2 ^ 64 ∧ state64 S l H = (0, 0, 0)) ∧
    (∃ S l H, S < 2 ^ 64 ∧ l < 2 ^ 64 ∧ H < 2 ^ 64 ∧ state64i S l H = (0, 0, 0)) :=
  have a := core64_state_bijective 1 2 3 1 2 3 0 0 0 (by norm_num) (by norm_num) (by norm_num)
    (by norm_num) (by norm_num) (by norm_num) (by norm_num) (by norm_num) (by norm_num)
  ⟨a.1.2, a.2.2⟩

/-- C20: for a fixed final byte `1 ≤ fb ≤ 255`, on a host of either byte order,
`prvhash_lpu64ec` is injective over byte buffers of length 0 to 7: buffers that load
as the same word have the same length and the same bytes. -/
theorem lpu64ec_injective (le : Bool) (fb : Nat) (buf1 buf2 : List Nat) (hfb1 : 1 ≤ fb)
    (hfb2 : fb ≤ 255) (hl1 : buf1.length ≤ 7) (hl2 : buf2.length ≤ 7)
    (hb1 : ∀ x ∈ buf1, x < 256) (hb2 : ∀ x ∈ buf2, x < 256)
    (h : prvhash_lpu64ec le buf1 0 buf1.length fb = prvhash_lpu64ec le buf2 0 buf2.length fb) :
    buf1 = buf2 := by
  rw [lpu64ec_ofBytes le buf1 fb hl1 hb1 (by omega),
    lpu64ec_ofBytes le buf2 fb hl2 hb2 (by omega)] at h
  have hv : ofBytesLE (buf1 ++ [fb]) = ofBytesLE (buf2 ++ [fb]) := Option.some.inj h
  have key : ∀ buf : List Nat, (∀ x ∈ buf, x < 256) →
      (∀ x ∈ buf ++ [fb], x < 256) ∧ (∀ hne : buf ++ [fb] ≠ [], (buf ++ [fb]).getLast hne ≠ 0) := by
    intro buf hb
    constructor
    · intro x hx
      rcases List.mem_append.mp hx with hx | hx
      · exact hb x hx
      · have : x = fb := by simpa using hx
        omega
    · intro hne
      rw [List.getLast_append_singleton]
      omega
  have e := ofBytesLE_inj _ _ (key buf1 hb1).1 (key buf2 hb2).1 (key buf1 hb1).2 (key buf2 hb2).2 hv
  exact List.append_cancel_right e

/-- C20, instance: the tails `[1]` and `[1, 0]` load as different words with final
byte `0x80`: the shorter one could otherwise be taken for the longer. -/
theorem lpu64ec_injective_witness :
    prvhash_lpu64ec true [1] 0 1 0x80 ≠ prvhash_lpu64ec true [1, 0] 0 2 0x80 :=
  fun h => absurd (lpu64ec_injective true 0x80 [1] [1, 0] (by decide) (by decide) (by decide)
    (by decide) (by decide) (by decide) h) (by decide)


/-! ## Counters of the reachable states -/

theorem entByte_lt (dev : Nat → Nat) (f : Option Nat) : entByte dev f < 256 := by
  cases f with
  | none => simp [entByte]
  | some p => exact Nat.mod_lt _ (by norm_num)

theorem preInitLoop32_counters (dev : Nat → Nat) (n : Nat) (ctx : PRVRNG_CTX) :
    (preInitLoop32 dev n ctx).EntCtr = ctx.EntCtr ∧
    (preInitLoop32 dev n ctx).HashLeft = ctx.HashLeft := by
  induction n generalizing ctx with
  | zero => exact ⟨rfl, rfl⟩
  | succ k ih =>
    simp only [preInitLoop32, gen_entropy_eq]
    exact ih _

theorem preInitLoop64_counters (dev : Nat → Nat) (n : Nat) (ctx : PRVRNG_CTX) :
    (preInitLoop64 dev n ctx).EntCtr = ctx.EntCtr ∧
    (preInitLoop64 dev n ctx).HashLeft = ctx.HashLeft := by
  induction n generalizing ctx with
  | zero => exact ⟨rfl, rfl⟩
  | succ k ih =>
    simp only [preInitLoop64, gen_entropy_eq]
    exact ih _

theorem init32_counters (dev : Nat → Nat) (ctx : PRVRNG_CTX) (DoPreInit : Bool) :
    (prvrng_init32 dev true ctx DoPreInit).2.EntCtr = 0 ∧
    (prvrng_init32 dev true ctx DoPreInit).2.HashLeft = 0 := by
  cases DoPreInit
  · exact ⟨rfl, rfl⟩
  · exact preInitLoop32_counters dev 32 initCtx

theorem init64_counters (dev : Nat → Nat) (ctx : PRVRNG_CTX) (DoPreInit : Bool) :
    (prvrng_init64 dev true ctx DoPreInit).2.EntCtr = 0 ∧
    (prvrng_init64 dev true ctx DoPreInit).2.HashLeft = 0 := by
  cases DoPreInit
  · exact ⟨rfl, rfl⟩
  · exact preInitLoop64_counters dev 32 initCtx

theorem gen32_keeps_bounds (dev : Nat → Nat) (ctx : PRVRNG_CTX)
    (h : 0 ≤ ctx.HashLeft ∧ ctx.HashLeft ≤ 3 ∧ 0 ≤ ctx.EntCtr ∧ ctx.EntCtr ≤ 1023) :
    0 ≤ (prvrng_gen32 dev ctx).2.HashLeft ∧ (prvrng_gen32 dev ctx).2.HashLeft ≤ 3 ∧
    0 ≤ (prvrng_gen32 dev ctx).2.EntCtr ∧ (prvrng_gen32 dev ctx).2.EntCtr ≤ 1023 := by
  obtain ⟨c1, c2⟩ := gen32_counters dev ctx
  have he := entByte_lt dev ctx.f
  rw [c1, c2]
  by_cases hH : ctx.HashLeft = 0
  · by_cases hE : ctx.EntCtr = 0
    · simp only [hH, hE, if_true]; omega
    · simp only [hH, hE, if_true, if_false]; omega
  · simp only [hH, if_false]; omega

theorem gen64_keeps_bounds (dev : Nat → Nat) (ctx : PRVRNG_CTX)
    (h : 0 ≤ ctx.HashLeft ∧ ctx.HashLeft ≤ 7 ∧ 0 ≤ ctx.EntCtr ∧ ctx.EntCtr ≤ 2047) :
    0 ≤ (prvrng_gen64 dev ctx).2.HashLeft ∧ (prvrng_gen64 dev ctx).2.HashLeft ≤ 7 ∧
    0 ≤ (prvrng_gen64 dev ctx).2.EntCtr ∧ (prvrng_gen64 dev ctx).2.EntCtr ≤ 2047 := by
  obtain ⟨c1, c2⟩ := gen64_counters dev ctx
  have he := entByte_lt dev ctx.f
  rw [c1, c2]
  by_cases hH : ctx.HashLeft = 0
  · by_cases hE : ctx.EntCtr = 0
    · simp only [hH, hE, if_true]; omega
    · simp only [hH, hE, if_true, if_false]; omega
  · simp only [hH, if_false]; omega

theorem run32_keeps_bounds (dev : Nat → Nat) (n : Nat) (ctx : PRVRNG_CTX)
    (h : 0 ≤ ctx.HashLeft ∧ ctx.HashLeft ≤ 3 ∧ 0 ≤ ctx.EntCtr ∧ ctx.EntCtr ≤ 1023) :
    0 ≤ (run32 dev n ctx).HashLeft ∧ (run32 dev n ctx).HashLeft ≤ 3 ∧
    0 ≤ (run32 dev n ctx).EntCtr ∧ (run32 dev n ctx).EntCtr ≤ 1023 := by
  induction n generalizing ctx with
  | zero => exact h
  | succ k ih => exact ih _ (gen32_keeps_bounds dev ctx h)

theorem run64_keeps_bounds (dev : Nat → Nat) (n : Nat) (ctx : PRVRNG_CTX)
    (h : 0 ≤ ctx.HashLeft ∧ ctx.HashLeft ≤ 7 ∧ 0 ≤ ctx.EntCtr ∧ ctx.EntCtr ≤ 2047) :
    0 ≤ (run64 dev n ctx).HashLeft ∧ (run64 dev n ctx).HashLeft ≤ 7 ∧
    0 ≤ (run64 dev n ctx).EntCtr ∧ (run64 dev n ctx).EntCtr ≤ 2047 := by
  induction n generalizing ctx with
  | zero => exact h
  | succ k ih => exact ih _ (gen64_keeps_bounds dev ctx h)

/-- C21: in every state reached from a successful `prvrng_init32` (with or without
pre-warm, from any storage) by `n` calls of `prvrng_gen32`, under every device byte
stream, `0 ≤ HashLeft ≤ 3` and `0 ≤ EntCtr ≤ 1023`; from a successful `prvrng_init64`
by `n` calls of `prvrng_gen64`, `0 ≤ HashLeft ≤ 7` and `0 ≤ EntCtr ≤ 2047`. -/
theorem reachable_counters_bounded (dev : Nat → Nat) (ctx : PRVRNG_CTX) (DoPreInit : Bool)
    (n : Nat) :
    ((prvrng_init32 dev true ctx DoPreInit).1 ≠ 0 ∧
      0 ≤ (run32 dev n (prvrng_init32 dev true ctx DoPreInit).2).HashLeft ∧
      (run32 dev n (prvrng_init32 dev true ctx DoPreInit).2).HashLeft ≤ 3 ∧
      0 ≤ (run32 dev n (prvrng_init32 dev true ctx DoPreInit).2).EntCtr ∧
      (run32 dev n (prvrng_init32 dev true ctx DoPreInit).2).EntCtr ≤ 1023) ∧
    ((prvrng_init64 dev true ctx DoPreInit).1 ≠ 0 ∧
      0 ≤ (run64 dev n (prvrng_init64 dev true ctx DoPreInit).2).HashLeft ∧
      (run64 dev n (prvrng_init64 dev true ctx DoPreInit).2).HashLeft ≤ 7 ∧
      0 ≤ (run64 dev n (prvrng_init64 dev true ctx DoPreInit).2).EntCtr ∧
      (run64 dev n (prvrng_init64 dev true ctx DoPreInit).2).EntCtr ≤ 2047) := by
  obtain ⟨e32, h32⟩ := init32_counters dev ctx DoPreInit
  obtain ⟨e64, h64⟩ := init64_counters dev ctx DoPreInit
  refine ⟨⟨?_, run32_keeps_bounds dev n _ (by rw [e32, h32]; norm_num)⟩,
    ⟨?_, run64_keeps_bounds dev n _ (by rw [e64, h64]; norm_num)⟩⟩
  · cases DoPreInit <;> simp [prvrng_init32]
  · cases DoPreInit <;> simp [prvrng_init64, prvrng_init32]

end Prvhash
